import Mathlib

/-!
Verification of the parametric hull geometry and hydrostatic equilibrium
engine of the jax-vessels repository.

The development shallowly embeds the Python sources in Lean:
* `scripts/calculate_draft.py` — waterplane-area slice integration,
  cumulative trapezoidal volumes, and the inverse draft solver;
* `examples/scripts/generate_hull.py` — `grid_to_mesh` lofting
  (starboard shell, mirrored port shell, transom stitching) and the
  ASCII STL writer `write_stl`;
* `examples/scripts/blender_nurbs_barge.py` — the section-profile
  envelope functions (width factor, keel rise);
* `scripts/verify_hull.py` and `scripts/core/verify_hull.py` — the
  hull verification report status logic.

Machine floats are modelled by `ℚ` where the computations are rational
and by `ℝ` where the source uses fractional powers.  External library
calls (pyvista slicing) are modelled as oracle inputs: the per-level
waterplane area is an `Option ℚ`, `none` standing for a raised
exception inside the per-slice `try` block.
-/

/-! ## Slice integration and the draft solver (`scripts/calculate_draft.py`) -/

/-- `np.linspace(a, b, n)`: `n` evenly spaced samples from `a` to `b`
inclusive, element `i` being `a + (b - a) * i / (n - 1)`. -/
def linspace (a b : ℚ) (n : ℕ) : List ℚ :=
  (List.range n).map (fun (i : ℕ) => a + (b - a) * (i : ℚ) / ((n : ℚ) - 1))

/-- The per-level waterplane areas.  `areaFn z` is the result of the
pyvista slice/Delaunay area computation at level `z` (`none` when the
slice raised, or had fewer than 3 points, in which case the code appends
`0.0`). -/
def areasOf (areaFn : ℚ → Option ℚ) (zs : List ℚ) : List ℚ :=
  zs.map (fun z => (areaFn z).getD 0)

/-- The loop `volumes[i] = volumes[i-1] + 0.5*(areas[i]+areas[i-1])*dz`:
given the accumulated volume `v` at the previous `(z, area)` sample `za`,
produce the remaining cumulative trapezoidal sums. -/
def volumesAux (v : ℚ) (za : ℚ × ℚ) : List (ℚ × ℚ) → List ℚ
  | [] => []
  | za' :: rest =>
      let v' := v + (za.2 + za'.2) / 2 * (za'.1 - za.1)
      v' :: volumesAux v' za' rest

/-- Cumulative trapezoidal volumes over the `(z, area)` samples;
`volumes[0] = 0` and each later entry adds one trapezoidal slab. -/
def trapzVolumes : List (ℚ × ℚ) → List ℚ
  | [] => []
  | za :: rest => 0 :: volumesAux 0 za rest

/-- `np.searchsorted(l, v)` (default `side = 'left'`) on the sorted
lists produced here: the least index `i` with `v ≤ l[i]`, or `l.length`
when there is none.  (The numpy binary search and this linear scan agree
on sorted input, and both guarantee `l[i-1] < v ≤ l[i]` at an interior
result.) -/
def searchsortedLeft (v : ℚ) : List ℚ → ℕ
  | [] => 0
  | a :: rest => if v ≤ a then 0 else searchsortedLeft v rest + 1

/-- The `z_sweep = np.linspace(z_min, z_max, 200)` sample levels. -/
def draftZSweep (zmin zmax : ℚ) : List ℚ :=
  linspace zmin zmax 200

/-- The `volumes` array of `calculate_draft`. -/
def draftVolumes (zmin zmax : ℚ) (areaFn : ℚ → Option ℚ) : List ℚ :=
  trapzVolumes ((draftZSweep zmin zmax).zip (areasOf areaFn (draftZSweep zmin zmax)))

/-- What `calculate_draft` returns, together with the diagnostics it
prints: the capacity warning, the two out-of-range error messages, and
the numeric draft handed back to the caller (the function returns a
number on every path). -/
structure DraftResult where
  warnCapacity : Bool
  errBelowMin : Bool
  errOverloaded : Bool
  draft : ℚ

/-- `calculate_draft(hull_file, target_mass, rho)` from
`scripts/calculate_draft.py`, with the mesh abstracted to its vertical
bounds `[zmin, zmax]` and the per-level slice-area oracle `areaFn`. -/
def calculate_draft (zmin zmax : ℚ) (areaFn : ℚ → Option ℚ)
    (target_mass rho : ℚ) : DraftResult :=
  let target_volume := target_mass / rho
  let z_sweep := draftZSweep zmin zmax
  let volumes := draftVolumes zmin zmax areaFn
  let max_disp := (volumes.getLast?).getD 0
  let warn : Bool := decide (max_disp < target_volume)
  let idx := searchsortedLeft target_volume volumes
  if idx = 0 then ⟨warn, true, false, zmin⟩
  else if volumes.length ≤ idx then ⟨warn, false, true, zmax⟩
  else
    let z_low := z_sweep.getD (idx - 1) 0
    let z_high := z_sweep.getD idx 0
    let v_low := volumes.getD (idx - 1) 0
    let v_high := volumes.getD idx 0
    let fraction := (target_volume - v_low) / (v_high - v_low)
    ⟨warn, false, false, z_low + fraction * (z_high - z_low)⟩

/-! ### Basic facts about the sample grid and the volume sequence -/

lemma linspace_length (a b : ℚ) (n : ℕ) : (linspace a b n).length = n := by
  simp [linspace]

lemma linspace_getD (a b : ℚ) (n i : ℕ) (hi : i < n) :
    (linspace a b n).getD i 0 = a + (b - a) * (i : ℚ) / ((n : ℚ) - 1) := by
  unfold linspace
  rw [List.getD_eq_getElem?_getD, List.getElem?_map, List.getElem?_range hi]
  rfl

lemma zip_map_self {α γ : Type} (l : List α) (g : α → γ) :
    l.zip (l.map g) = l.map (fun x => (x, g x)) := by
  induction l with
  | nil => rfl
  | cons x xs ih => simp [ih]

/-- The `(z, area)` pair list is a single map over the sweep levels. -/
lemma draftVolumes_eq_map (zmin zmax : ℚ) (areaFn : ℚ → Option ℚ) :
    draftVolumes zmin zmax areaFn =
      trapzVolumes ((draftZSweep zmin zmax).map (fun z => (z, (areaFn z).getD 0))) := by
  unfold draftVolumes areasOf
  rw [zip_map_self]

lemma volumesAux_length (v : ℚ) (za : ℚ × ℚ) (l : List (ℚ × ℚ)) :
    (volumesAux v za l).length = l.length := by
  induction l generalizing v za with
  | nil => rfl
  | cons za' rest ih => simp [volumesAux, ih]

lemma trapzVolumes_length (l : List (ℚ × ℚ)) :
    (trapzVolumes l).length = l.length := by
  cases l with
  | nil => rfl
  | cons za rest => simp [trapzVolumes, volumesAux_length]

lemma draftVolumes_length (zmin zmax : ℚ) (areaFn : ℚ → Option ℚ) :
    (draftVolumes zmin zmax areaFn).length = 200 := by
  rw [draftVolumes_eq_map, trapzVolumes_length]
  simp [draftZSweep, linspace_length]

lemma draftVolumes_getD_zero (zmin zmax : ℚ) (areaFn : ℚ → Option ℚ) :
    (draftVolumes zmin zmax areaFn).getD 0 0 = 0 := by
  rw [draftVolumes_eq_map]
  have h : draftZSweep zmin zmax ≠ [] := by
    intro h
    have := linspace_length zmin zmax 200
    rw [show linspace zmin zmax 200 = draftZSweep zmin zmax from rfl, h] at this
    simp at this
  cases hz : draftZSweep zmin zmax with
  | nil => exact absurd hz h
  | cons z rest => simp [trapzVolumes]

lemma linspace_sorted (a b : ℚ) (n : ℕ) (hab : a ≤ b) (hn : 2 ≤ n) :
    List.Sorted (· ≤ ·) (linspace a b n) := by
  unfold linspace
  refine List.Pairwise.map _ ?_ (List.pairwise_lt_range n)
  intro i j hij
  have hcast : (i : ℚ) ≤ (j : ℚ) := by exact_mod_cast hij.le
  have hd : (0 : ℚ) ≤ b - a := by linarith
  have hpos : (0 : ℚ) < (n : ℚ) - 1 := by
    have : (2 : ℚ) ≤ (n : ℚ) := by exact_mod_cast hn
    linarith
  have hmul : (b - a) * (i : ℚ) ≤ (b - a) * (j : ℚ) :=
    mul_le_mul_of_nonneg_left hcast hd
  have hinv : (0 : ℚ) ≤ ((n : ℚ) - 1)⁻¹ := le_of_lt (inv_pos.mpr hpos)
  have := mul_le_mul_of_nonneg_right hmul hinv
  rw [div_eq_mul_inv, div_eq_mul_inv]
  linarith

lemma volumesAux_chain (l : List (ℚ × ℚ)) :
    ∀ (v : ℚ) (za : ℚ × ℚ),
      List.Chain' (fun p q : ℚ × ℚ => p.1 ≤ q.1) (za :: l) →
      (∀ p ∈ za :: l, 0 ≤ p.2) →
      List.Chain' (· ≤ ·) (v :: volumesAux v za l) := by
  induction l with
  | nil => intro v za _ _; simp [volumesAux]
  | cons za' rest ih =>
      intro v za hchain hpos
      rw [volumesAux]
      have hz : za.1 ≤ za'.1 := (List.chain'_cons.mp hchain).1
      have ha1 : 0 ≤ za.2 := hpos za (by simp)
      have ha2 : 0 ≤ za'.2 := hpos za' (by simp)
      have hstep : v ≤ v + (za.2 + za'.2) / 2 * (za'.1 - za.1) := by
        have : 0 ≤ (za.2 + za'.2) / 2 * (za'.1 - za.1) :=
          mul_nonneg (by linarith) (by linarith)
        linarith
      refine List.chain'_cons.mpr ⟨hstep, ?_⟩
      exact ih _ za' (List.chain'_cons.mp hchain).2
        (fun p hp => hpos p (List.mem_cons_of_mem _ hp))

lemma trapzVolumes_sorted (l : List (ℚ × ℚ))
    (hz : List.Chain' (fun p q : ℚ × ℚ => p.1 ≤ q.1) l)
    (ha : ∀ p ∈ l, 0 ≤ p.2) :
    List.Sorted (· ≤ ·) (trapzVolumes l) := by
  cases l with
  | nil => simp [trapzVolumes]
  | cons za rest =>
      rw [trapzVolumes]
      exact List.chain'_iff_pairwise.mp (volumesAux_chain rest 0 za hz ha)

/-- The `volumes` sequence of `calculate_draft` is sorted whenever the
mesh bounds are ordered and every computed slice area is non-negative. -/
lemma draftVolumes_sorted (zmin zmax : ℚ) (areaFn : ℚ → Option ℚ)
    (hz : zmin ≤ zmax) (ha : ∀ z r, areaFn z = some r → 0 ≤ r) :
    List.Sorted (· ≤ ·) (draftVolumes zmin zmax areaFn) := by
  rw [draftVolumes_eq_map]
  apply trapzVolumes_sorted
  · rw [List.chain'_map]
    have hs : List.Sorted (· ≤ ·) (draftZSweep zmin zmax) :=
      linspace_sorted zmin zmax 200 hz (by norm_num)
    exact hs.chain'
  · intro p hp
    rcases List.mem_map.mp hp with ⟨z, _, rfl⟩
    cases hr : areaFn z with
    | none => simp
    | some r => simpa using ha z r hr

lemma sorted_getD_mono {l : List ℚ} (hs : List.Sorted (· ≤ ·) l)
    {i j : ℕ} (hij : i ≤ j) (hj : j < l.length) :
    l.getD i 0 ≤ l.getD j 0 := by
  rcases eq_or_lt_of_le hij with rfl | hlt
  · exact le_refl _
  · have hi : i < l.length := lt_trans hlt hj
    rw [List.getD_eq_getElem l 0 hi, List.getD_eq_getElem l 0 hj]
    exact List.pairwise_iff_getElem.mp hs i j hi hj hlt

lemma searchsortedLeft_le_length (v : ℚ) (l : List ℚ) :
    searchsortedLeft v l ≤ l.length := by
  induction l with
  | nil => simp [searchsortedLeft]
  | cons a rest ih =>
      rw [searchsortedLeft]
      split
      · simp
      · simpa using ih

lemma searchsortedLeft_getD (v : ℚ) (l : List ℚ)
    (h : searchsortedLeft v l < l.length) :
    v ≤ l.getD (searchsortedLeft v l) 0 := by
  induction l with
  | nil => simp at h
  | cons a rest ih =>
      by_cases hva : v ≤ a
      · rw [searchsortedLeft, if_pos hva]
        simpa using hva
      · rw [searchsortedLeft, if_neg hva] at h ⊢
        have h2 : searchsortedLeft v rest < rest.length := by
          simpa using h
        simpa using ih h2

lemma searchsortedLeft_getD_lt (v : ℚ) (l : List ℚ) (k : ℕ)
    (h : k < searchsortedLeft v l) :
    l.getD k 0 < v := by
  induction l generalizing k with
  | nil => simp [searchsortedLeft] at h
  | cons a rest ih =>
      by_cases hva : v ≤ a
      · rw [searchsortedLeft, if_pos hva] at h
        omega
      · rw [searchsortedLeft, if_neg hva] at h
        cases k with
        | zero => simpa using lt_of_not_le hva
        | succ k => simpa using ih k (by omega)

lemma searchsortedLeft_eq_zero_iff (v : ℚ) (a : ℚ) (rest : List ℚ) :
    searchsortedLeft v (a :: rest) = 0 ↔ v ≤ a := by
  by_cases hva : v ≤ a
  · rw [searchsortedLeft, if_pos hva]
    simpa using hva
  · rw [searchsortedLeft, if_neg hva]
    simpa using hva

lemma getD_map_lt (l : List ℚ) (f : ℚ → ℚ) (k : ℕ) (h : k < l.length) :
    (l.map f).getD k 0 = f (l.getD k 0) := by
  rw [List.getD_eq_getElem _ 0 (by simpa using h), List.getElem_map,
    List.getD_eq_getElem _ 0 h]

lemma draftZSweep_length (zmin zmax : ℚ) : (draftZSweep zmin zmax).length = 200 := by
  simp [draftZSweep, linspace_length]

lemma draftZSweep_getD (zmin zmax : ℚ) (i : ℕ) (hi : i < 200) :
    (draftZSweep zmin zmax).getD i 0 = zmin + (zmax - zmin) * (i : ℚ) / 199 := by
  rw [draftZSweep, linspace_getD zmin zmax 200 i hi]
  norm_num

lemma draftZSweep_getD_bounds (zmin zmax : ℚ) (hz : zmin ≤ zmax) (i : ℕ)
    (hi : i < 200) :
    zmin ≤ (draftZSweep zmin zmax).getD i 0 ∧
      (draftZSweep zmin zmax).getD i 0 ≤ zmax := by
  rw [draftZSweep_getD zmin zmax i hi]
  have hi199 : (i : ℚ) ≤ 199 := by exact_mod_cast Nat.lt_succ_iff.mp hi
  have hi0 : (0 : ℚ) ≤ (i : ℚ) := by positivity
  have hd : (0 : ℚ) ≤ zmax - zmin := by linarith
  constructor
  · have : 0 ≤ (zmax - zmin) * (i : ℚ) / 199 := by positivity
    linarith
  · have h1 : (zmax - zmin) * (i : ℚ) ≤ (zmax - zmin) * 199 :=
      mul_le_mul_of_nonneg_left hi199 hd
    have h2 : (zmax - zmin) * (i : ℚ) / 199 ≤ (zmax - zmin) * 199 / 199 := by
      linarith
    have h3 : (zmax - zmin) * 199 / 199 = zmax - zmin := by ring
    linarith

/-! ### Branch characterization of `calculate_draft` -/

lemma calculate_draft_belowMin (zmin zmax : ℚ) (areaFn : ℚ → Option ℚ)
    (m rho : ℚ)
    (h : searchsortedLeft (m / rho) (draftVolumes zmin zmax areaFn) = 0) :
    calculate_draft zmin zmax areaFn m rho =
      ⟨decide (((draftVolumes zmin zmax areaFn).getLast?).getD 0 < m / rho),
        true, false, zmin⟩ := by
  simp only [calculate_draft]
  rw [h]
  simp

lemma calculate_draft_overloaded (zmin zmax : ℚ) (areaFn : ℚ → Option ℚ)
    (m rho : ℚ)
    (h : 200 ≤ searchsortedLeft (m / rho) (draftVolumes zmin zmax areaFn)) :
    calculate_draft zmin zmax areaFn m rho =
      ⟨decide (((draftVolumes zmin zmax areaFn).getLast?).getD 0 < m / rho),
        false, true, zmax⟩ := by
  simp only [calculate_draft]
  rw [if_neg (by omega), draftVolumes_length, if_pos h]

lemma calculate_draft_interior (zmin zmax : ℚ) (areaFn : ℚ → Option ℚ)
    (m rho : ℚ)
    (h0 : searchsortedLeft (m / rho) (draftVolumes zmin zmax areaFn) ≠ 0)
    (h1 : searchsortedLeft (m / rho) (draftVolumes zmin zmax areaFn) < 200) :
    calculate_draft zmin zmax areaFn m rho =
      ⟨decide (((draftVolumes zmin zmax areaFn).getLast?).getD 0 < m / rho),
        false, false,
        (draftZSweep zmin zmax).getD
            (searchsortedLeft (m / rho) (draftVolumes zmin zmax areaFn) - 1) 0 +
          (m / rho -
              (draftVolumes zmin zmax areaFn).getD
                (searchsortedLeft (m / rho) (draftVolumes zmin zmax areaFn) - 1) 0) /
            ((draftVolumes zmin zmax areaFn).getD
                (searchsortedLeft (m / rho) (draftVolumes zmin zmax areaFn)) 0 -
              (draftVolumes zmin zmax areaFn).getD
                (searchsortedLeft (m / rho) (draftVolumes zmin zmax areaFn) - 1) 0) *
            ((draftZSweep zmin zmax).getD
                (searchsortedLeft (m / rho) (draftVolumes zmin zmax areaFn)) 0 -
              (draftZSweep zmin zmax).getD
                (searchsortedLeft (m / rho) (draftVolumes zmin zmax areaFn) - 1) 0)⟩ := by
  simp only [calculate_draft]
  rw [if_neg h0, draftVolumes_length, if_neg (by omega)]

/-! ### Closed form for a constant area oracle (used to instantiate the
theorems at concrete inputs) -/

lemma volumesAux_const (c : ℚ) (l : List ℚ) : ∀ (v z : ℚ),
    volumesAux v (z, c) (l.map (fun x => (x, c))) =
      l.map (fun x => v + c * (x - z)) := by
  induction l with
  | nil => intro v z; rfl
  | cons x xs ih =>
      intro v z
      simp only [List.map_cons, volumesAux]
      have h1 : v + (c + c) / 2 * (x - z) = v + c * (x - z) := by ring
      rw [h1, ih (v + c * (x - z)) x]
      refine congrArg _ ?_
      refine List.map_congr_left ?_
      intro y _
      ring

lemma trapzVolumes_const (c z : ℚ) (rest : List ℚ) :
    trapzVolumes ((z :: rest).map (fun x => (x, c))) =
      0 :: rest.map (fun x => c * (x - z)) := by
  simp only [List.map_cons, trapzVolumes]
  rw [volumesAux_const]
  refine congrArg _ ?_
  refine List.map_congr_left ?_
  intro y _
  ring

lemma draftVolumes_const_getD (zmin zmax c : ℚ) (i : ℕ) (hi : i < 200) :
    (draftVolumes zmin zmax (fun _ => some c)).getD i 0 =
      c * ((draftZSweep zmin zmax).getD i 0 - zmin) := by
  rw [draftVolumes_eq_map]
  have hmap : (fun z => (z, (some c).getD 0)) = fun z : ℚ => (z, c) := by
    funext z; simp
  rw [hmap]
  obtain ⟨z0, rest, hz⟩ : ∃ z0 rest, draftZSweep zmin zmax = z0 :: rest := by
    cases h : draftZSweep zmin zmax with
    | nil =>
        have := draftZSweep_length zmin zmax
        rw [h] at this
        simp at this
    | cons a l => exact ⟨a, l, rfl⟩
  have hz0 : z0 = zmin := by
    have := draftZSweep_getD zmin zmax 0 (by norm_num)
    rw [hz] at this
    simpa using this
  have hrest : rest.length = 199 := by
    have := draftZSweep_length zmin zmax
    rw [hz] at this
    simpa using this
  rw [hz, trapzVolumes_const]
  cases i with
  | zero =>
      rw [List.getD_cons_zero, List.getD_cons_zero, hz0]
      ring
  | succ k =>
      have hk : k < rest.length := by omega
      rw [List.getD_cons_succ, List.getD_cons_succ,
        getD_map_lt rest _ k hk, hz0]

lemma searchsorted_draftVolumes_eq_zero (zmin zmax : ℚ) (areaFn : ℚ → Option ℚ)
    (m rho : ℚ) (hm : m / rho ≤ 0) :
    searchsortedLeft (m / rho) (draftVolumes zmin zmax areaFn) = 0 := by
  obtain ⟨v0, rest, hv⟩ : ∃ v0 rest, draftVolumes zmin zmax areaFn = v0 :: rest := by
    cases h : draftVolumes zmin zmax areaFn with
    | nil =>
        have := draftVolumes_length zmin zmax areaFn
        rw [h] at this
        simp at this
    | cons a l => exact ⟨a, l, rfl⟩
  have hv0 : v0 = 0 := by
    have := draftVolumes_getD_zero zmin zmax areaFn
    rw [hv] at this
    simpa using this
  rw [hv]
  exact (searchsortedLeft_eq_zero_iff _ _ _).mpr (by rw [hv0]; exact hm)

lemma searchsorted_draftVolumes_ge (zmin zmax : ℚ) (areaFn : ℚ → Option ℚ)
    (m rho : ℚ) (hz : zmin ≤ zmax) (ha : ∀ z r, areaFn z = some r → 0 ≤ r)
    (hm : (draftVolumes zmin zmax areaFn).getD 199 0 < m / rho) :
    200 ≤ searchsortedLeft (m / rho) (draftVolumes zmin zmax areaFn) := by
  by_contra hidx
  push_neg at hidx
  have hlen : searchsortedLeft (m / rho) (draftVolumes zmin zmax areaFn) <
      (draftVolumes zmin zmax areaFn).length := by
    rw [draftVolumes_length]; exact hidx
  have h1 := searchsortedLeft_getD (m / rho) (draftVolumes zmin zmax areaFn) hlen
  have h2 : (draftVolumes zmin zmax areaFn).getD
      (searchsortedLeft (m / rho) (draftVolumes zmin zmax areaFn)) 0 ≤
      (draftVolumes zmin zmax areaFn).getD 199 0 := by
    apply sorted_getD_mono (draftVolumes_sorted zmin zmax areaFn hz ha) (by omega)
    rw [draftVolumes_length]
    norm_num
  linarith

/-- In the interior (bracketed) branch the returned draft lies between
the bracketing sweep levels, hence within `[zmin, zmax]`. -/
lemma calculate_draft_range (zmin zmax : ℚ) (areaFn : ℚ → Option ℚ)
    (m rho : ℚ) (hz : zmin ≤ zmax) :
    zmin ≤ (calculate_draft zmin zmax areaFn m rho).draft ∧
      (calculate_draft zmin zmax areaFn m rho).draft ≤ zmax := by
  by_cases h0 : searchsortedLeft (m / rho) (draftVolumes zmin zmax areaFn) = 0
  · rw [calculate_draft_belowMin zmin zmax areaFn m rho h0]
    exact ⟨le_refl _, hz⟩
  by_cases h1 : 200 ≤ searchsortedLeft (m / rho) (draftVolumes zmin zmax areaFn)
  · rw [calculate_draft_overloaded zmin zmax areaFn m rho h1]
    exact ⟨hz, le_refl _⟩
  push_neg at h1
  rw [calculate_draft_interior zmin zmax areaFn m rho h0 h1]
  have hlen : searchsortedLeft (m / rho) (draftVolumes zmin zmax areaFn) <
      (draftVolumes zmin zmax areaFn).length := by
    rw [draftVolumes_length]; exact h1
  have hvlow := searchsortedLeft_getD_lt (m / rho) (draftVolumes zmin zmax areaFn)
    (searchsortedLeft (m / rho) (draftVolumes zmin zmax areaFn) - 1) (by omega)
  have hvhigh := searchsortedLeft_getD (m / rho) (draftVolumes zmin zmax areaFn) hlen
  have hzlow := draftZSweep_getD_bounds zmin zmax hz
    (searchsortedLeft (m / rho) (draftVolumes zmin zmax areaFn) - 1) (by omega)
  have hzhigh := draftZSweep_getD_bounds zmin zmax hz
    (searchsortedLeft (m / rho) (draftVolumes zmin zmax areaFn)) h1
  have hsw : List.Sorted (· ≤ ·) (draftZSweep zmin zmax) := by
    rw [draftZSweep]
    exact linspace_sorted zmin zmax 200 hz (by norm_num)
  have hzmono : (draftZSweep zmin zmax).getD
      (searchsortedLeft (m / rho) (draftVolumes zmin zmax areaFn) - 1) 0 ≤
      (draftZSweep zmin zmax).getD
        (searchsortedLeft (m / rho) (draftVolumes zmin zmax areaFn)) 0 := by
    apply sorted_getD_mono hsw (by omega)
    rw [draftZSweep_length]
    exact h1
  set tv := m / rho
  set vlow := (draftVolumes zmin zmax areaFn).getD
    (searchsortedLeft tv (draftVolumes zmin zmax areaFn) - 1) 0
  set vhigh := (draftVolumes zmin zmax areaFn).getD
    (searchsortedLeft tv (draftVolumes zmin zmax areaFn)) 0
  set zlow := (draftZSweep zmin zmax).getD
    (searchsortedLeft tv (draftVolumes zmin zmax areaFn) - 1) 0
  set zhigh := (draftZSweep zmin zmax).getD
    (searchsortedLeft tv (draftVolumes zmin zmax areaFn)) 0
  have hdv : 0 < vhigh - vlow := by linarith
  have hfrac0 : 0 ≤ (tv - vlow) / (vhigh - vlow) :=
    div_nonneg (by linarith) (by linarith)
  have hfrac1 : (tv - vlow) / (vhigh - vlow) ≤ 1 := by
    rw [div_le_one hdv]
    linarith
  constructor
  · have : 0 ≤ (tv - vlow) / (vhigh - vlow) * (zhigh - zlow) :=
      mul_nonneg hfrac0 (by linarith)
    show zmin ≤ zlow + (tv - vlow) / (vhigh - vlow) * (zhigh - zlow)
    linarith [hzlow.1]
  · have : (tv - vlow) / (vhigh - vlow) * (zhigh - zlow) ≤ 1 * (zhigh - zlow) :=
      mul_le_mul_of_nonneg_right hfrac1 (by linarith)
    show zlow + (tv - vlow) / (vhigh - vlow) * (zhigh - zlow) ≤ zmax
    have h2 : zlow + (tv - vlow) / (vhigh - vlow) * (zhigh - zlow) ≤ zhigh := by
      linarith
    linarith [hzhigh.2]

/-! ### Claim theorems for the draft solver -/

/-- C3: for every hull surface (vertical bounds `zmin ≤ zmax`, slice-area
oracle returning non-negative areas) the cumulative trapezoidal volume
sequence of `calculate_draft` is monotonically non-decreasing: whenever
sample index `i ≤ j` (so sweep level `z_i ≤ z_j`), the sampled volume at
`z_i` is at most the sampled volume at `z_j`. -/
theorem volume_monotone_in_draft (zmin zmax : ℚ) (areaFn : ℚ → Option ℚ)
    (hz : zmin ≤ zmax) (ha : ∀ z r, areaFn z = some r → 0 ≤ r)
    (i j : ℕ) (hij : i ≤ j) (hj : j < 200) :
    (draftVolumes zmin zmax areaFn).getD i 0 ≤
      (draftVolumes zmin zmax areaFn).getD j 0 := by
  apply sorted_getD_mono (draftVolumes_sorted zmin zmax areaFn hz ha) hij
  rw [draftVolumes_length]
  exact hj

theorem volume_monotone_in_draft_witness :
    (0 : ℚ) ≤ 1 ∧
      (draftVolumes 0 1 (fun _ => some 1)).getD 17 0 ≤
        (draftVolumes 0 1 (fun _ => some 1)).getD 42 0 :=
  ⟨by norm_num,
    volume_monotone_in_draft 0 1 (fun _ => some 1) (by norm_num)
      (fun z r h => by simp only [Option.some.injEq] at h; simp [← h])
      17 42 (by norm_num) (by norm_num)⟩

/-- C9: `calculate_draft` is total and always hands back a draft inside
the mesh vertical bounds `[zmin, zmax]`: a target volume at or below the
minimum sampled volume (which is `0`) yields `zmin`, a target volume
above the maximum sampled volume yields `zmax`, and a slice failure is
modelled by `areaFn z = none`, which contributes area `0` rather than
aborting (the totality over arbitrary `areaFn`, `none` included, is the
totality of the embedding). -/
theorem draft_total_and_in_range (zmin zmax : ℚ) (areaFn : ℚ → Option ℚ)
    (m rho : ℚ) (hz : zmin ≤ zmax) (ha : ∀ z r, areaFn z = some r → 0 ≤ r) :
    (zmin ≤ (calculate_draft zmin zmax areaFn m rho).draft ∧
      (calculate_draft zmin zmax areaFn m rho).draft ≤ zmax) ∧
    (m / rho ≤ 0 → (calculate_draft zmin zmax areaFn m rho).draft = zmin) ∧
    ((draftVolumes zmin zmax areaFn).getD 199 0 < m / rho →
      (calculate_draft zmin zmax areaFn m rho).draft = zmax) := by
  refine ⟨calculate_draft_range zmin zmax areaFn m rho hz, ?_, ?_⟩
  · intro hm
    rw [calculate_draft_belowMin zmin zmax areaFn m rho
      (searchsorted_draftVolumes_eq_zero zmin zmax areaFn m rho hm)]
  · intro hm
    rw [calculate_draft_overloaded zmin zmax areaFn m rho
      (searchsorted_draftVolumes_ge zmin zmax areaFn m rho hz ha hm)]

theorem draft_total_and_in_range_witness :
    (0 : ℚ) ≤ 4 ∧
      ((0 : ℚ) ≤ (calculate_draft 0 4 (fun _ => none) 2010000 1025).draft ∧
        (calculate_draft 0 4 (fun _ => none) 2010000 1025).draft ≤ 4) :=
  ⟨by norm_num,
    (draft_total_and_in_range 0 4 (fun _ => none) 2010000 1025 (by norm_num)
      (fun z r h => by simp at h)).1⟩

/-- The local `idx = np.searchsorted(volumes, target_volume)` of
`calculate_draft`. -/
def draftIdx (zmin zmax : ℚ) (areaFn : ℚ → Option ℚ) (m rho : ℚ) : ℕ :=
  searchsortedLeft (m / rho) (draftVolumes zmin zmax areaFn)

/-- C4: for a target mass strictly between the minimum and the maximum
sampled displacement, the solver locates a bracketing pair
`volumes[idx-1] < targetVolume ≤ volumes[idx]` in the non-decreasing
volume sequence, returns the draft linearly interpolated inside that
bracket, and the linearly interpolated volume at the returned draft,
multiplied by the fluid density, reproduces the target mass with
relative error `0 < 1e-3` (exactly, in exact arithmetic). -/
theorem draft_bracket_and_interpolation (zmin zmax m rho : ℚ)
    (areaFn : ℚ → Option ℚ)
    (hz : zmin < zmax) (hrho : 0 < rho)
    (ha : ∀ z r, areaFn z = some r → 0 ≤ r)
    (hlow : 0 < m / rho)
    (hhigh : m / rho < (draftVolumes zmin zmax areaFn).getD 199 0) :
    List.Sorted (· ≤ ·) (draftVolumes zmin zmax areaFn) ∧
    0 < draftIdx zmin zmax areaFn m rho ∧
    draftIdx zmin zmax areaFn m rho < 200 ∧
    (draftVolumes zmin zmax areaFn).getD (draftIdx zmin zmax areaFn m rho - 1) 0
        < m / rho ∧
    m / rho ≤
      (draftVolumes zmin zmax areaFn).getD (draftIdx zmin zmax areaFn m rho) 0 ∧
    (calculate_draft zmin zmax areaFn m rho).draft =
      (draftZSweep zmin zmax).getD (draftIdx zmin zmax areaFn m rho - 1) 0 +
        (m / rho -
            (draftVolumes zmin zmax areaFn).getD
              (draftIdx zmin zmax areaFn m rho - 1) 0) /
          ((draftVolumes zmin zmax areaFn).getD (draftIdx zmin zmax areaFn m rho) 0 -
            (draftVolumes zmin zmax areaFn).getD
              (draftIdx zmin zmax areaFn m rho - 1) 0) *
          ((draftZSweep zmin zmax).getD (draftIdx zmin zmax areaFn m rho) 0 -
            (draftZSweep zmin zmax).getD (draftIdx zmin zmax areaFn m rho - 1) 0) ∧
    (draftVolumes zmin zmax areaFn).getD (draftIdx zmin zmax areaFn m rho - 1) 0 +
        ((calculate_draft zmin zmax areaFn m rho).draft -
            (draftZSweep zmin zmax).getD (draftIdx zmin zmax areaFn m rho - 1) 0) /
          ((draftZSweep zmin zmax).getD (draftIdx zmin zmax areaFn m rho) 0 -
            (draftZSweep zmin zmax).getD (draftIdx zmin zmax areaFn m rho - 1) 0) *
          ((draftVolumes zmin zmax areaFn).getD (draftIdx zmin zmax areaFn m rho) 0 -
            (draftVolumes zmin zmax areaFn).getD
              (draftIdx zmin zmax areaFn m rho - 1) 0) = m / rho ∧
    |(m / rho) * rho - m| / m < 1 / 1000 := by
  simp only [draftIdx]
  set tv := m / rho with htv
  set V := draftVolumes zmin zmax areaFn with hV
  set idx := searchsortedLeft tv V with hidx
  have hlt200 : idx < 200 := by
    by_contra hge
    push_neg at hge
    have := searchsortedLeft_getD_lt tv V 199 (by omega)
    linarith
  have hlen : idx < V.length := by rw [hV, draftVolumes_length]; exact hlt200
  have hbh : tv ≤ V.getD idx 0 := searchsortedLeft_getD tv V hlen
  have h0 : idx ≠ 0 := by
    intro h
    rw [h] at hbh
    rw [hV, draftVolumes_getD_zero] at hbh
    linarith
  have hbl : V.getD (idx - 1) 0 < tv :=
    searchsortedLeft_getD_lt tv V (idx - 1) (by omega)
  have hinterior := calculate_draft_interior zmin zmax areaFn m rho
    (by rw [← hV, ← htv] at *; exact h0) (by rw [← hV, ← htv] at *; exact hlt200)
  have hdraft : (calculate_draft zmin zmax areaFn m rho).draft =
      (draftZSweep zmin zmax).getD (idx - 1) 0 +
        (tv - V.getD (idx - 1) 0) / (V.getD idx 0 - V.getD (idx - 1) 0) *
          ((draftZSweep zmin zmax).getD idx 0 - (draftZSweep zmin zmax).getD (idx - 1) 0) := by
    rw [hinterior]
  have hdz : (draftZSweep zmin zmax).getD idx 0 -
      (draftZSweep zmin zmax).getD (idx - 1) 0 = (zmax - zmin) / 199 := by
    rw [draftZSweep_getD zmin zmax idx hlt200,
      draftZSweep_getD zmin zmax (idx - 1) (by omega)]
    have hc : ((idx - 1 : ℕ) : ℚ) = (idx : ℚ) - 1 := by
      have h1 : 1 ≤ idx := by omega
      push_cast [Nat.cast_sub h1]
      ring
    rw [hc]
    ring
  have hdzpos : 0 < (draftZSweep zmin zmax).getD idx 0 -
      (draftZSweep zmin zmax).getD (idx - 1) 0 := by
    rw [hdz]
    have : 0 < zmax - zmin := by linarith
    positivity
  have hdvpos : 0 < V.getD idx 0 - V.getD (idx - 1) 0 := by linarith
  have hinterp : V.getD (idx - 1) 0 +
      ((calculate_draft zmin zmax areaFn m rho).draft -
          (draftZSweep zmin zmax).getD (idx - 1) 0) /
        ((draftZSweep zmin zmax).getD idx 0 -
          (draftZSweep zmin zmax).getD (idx - 1) 0) *
        (V.getD idx 0 - V.getD (idx - 1) 0) = tv := by
    rw [hdraft]
    have e1 : (draftZSweep zmin zmax).getD (idx - 1) 0 +
        (tv - V.getD (idx - 1) 0) / (V.getD idx 0 - V.getD (idx - 1) 0) *
          ((draftZSweep zmin zmax).getD idx 0 -
            (draftZSweep zmin zmax).getD (idx - 1) 0) -
        (draftZSweep zmin zmax).getD (idx - 1) 0 =
        (tv - V.getD (idx - 1) 0) / (V.getD idx 0 - V.getD (idx - 1) 0) *
          ((draftZSweep zmin zmax).getD idx 0 -
            (draftZSweep zmin zmax).getD (idx - 1) 0) := by ring
    rw [e1, mul_div_cancel_right₀ _ (ne_of_gt hdzpos),
      div_mul_cancel₀ _ (ne_of_gt hdvpos)]
    ring
  refine ⟨draftVolumes_sorted zmin zmax areaFn hz.le ha, by omega, hlt200, hbl,
    hbh, hdraft, hinterp, ?_⟩
  have hm : 0 < m := by
    have := mul_pos hlow hrho
    rw [div_mul_cancel₀ m (ne_of_gt hrho)] at this
    exact this
  rw [htv, div_mul_cancel₀ m (ne_of_gt hrho)]
  norm_num

lemma draftVolumes_const_one_199 :
    (draftVolumes 0 199 (fun _ => some (1 : ℚ))).getD 199 0 = 199 := by
  rw [draftVolumes_const_getD 0 199 1 199 (by norm_num),
    draftZSweep_getD 0 199 199 (by norm_num)]
  norm_num

theorem draft_bracket_and_interpolation_witness :
    (0 : ℚ) < 50 / 1 ∧
    (50 : ℚ) / 1 < (draftVolumes 0 199 (fun _ => some 1)).getD 199 0 ∧
    (List.Sorted (· ≤ ·) (draftVolumes 0 199 (fun _ => some 1)) ∧
      0 < draftIdx 0 199 (fun _ => some 1) 50 1 ∧
      draftIdx 0 199 (fun _ => some 1) 50 1 < 200 ∧
      (draftVolumes 0 199 (fun _ => some 1)).getD
          (draftIdx 0 199 (fun _ => some 1) 50 1 - 1) 0 < 50 / 1 ∧
      50 / 1 ≤
        (draftVolumes 0 199 (fun _ => some 1)).getD
          (draftIdx 0 199 (fun _ => some 1) 50 1) 0 ∧
      (calculate_draft 0 199 (fun _ => some 1) 50 1).draft =
        (draftZSweep 0 199).getD (draftIdx 0 199 (fun _ => some 1) 50 1 - 1) 0 +
          (50 / 1 -
              (draftVolumes 0 199 (fun _ => some 1)).getD
                (draftIdx 0 199 (fun _ => some 1) 50 1 - 1) 0) /
            ((draftVolumes 0 199 (fun _ => some 1)).getD
                (draftIdx 0 199 (fun _ => some 1) 50 1) 0 -
              (draftVolumes 0 199 (fun _ => some 1)).getD
                (draftIdx 0 199 (fun _ => some 1) 50 1 - 1) 0) *
            ((draftZSweep 0 199).getD (draftIdx 0 199 (fun _ => some 1) 50 1) 0 -
              (draftZSweep 0 199).getD
                (draftIdx 0 199 (fun _ => some 1) 50 1 - 1) 0) ∧
      (draftVolumes 0 199 (fun _ => some 1)).getD
          (draftIdx 0 199 (fun _ => some 1) 50 1 - 1) 0 +
          ((calculate_draft 0 199 (fun _ => some 1) 50 1).draft -
              (draftZSweep 0 199).getD
                (draftIdx 0 199 (fun _ => some 1) 50 1 - 1) 0) /
            ((draftZSweep 0 199).getD (draftIdx 0 199 (fun _ => some 1) 50 1) 0 -
              (draftZSweep 0 199).getD
                (draftIdx 0 199 (fun _ => some 1) 50 1 - 1) 0) *
            ((draftVolumes 0 199 (fun _ => some 1)).getD
                (draftIdx 0 199 (fun _ => some 1) 50 1) 0 -
              (draftVolumes 0 199 (fun _ => some 1)).getD
                (draftIdx 0 199 (fun _ => some 1) 50 1 - 1) 0) = 50 / 1 ∧
      |(50 / 1 : ℚ) * 1 - 50| / 50 < 1 / 1000) :=
  ⟨by norm_num, by rw [draftVolumes_const_one_199]; norm_num,
    draft_bracket_and_interpolation 0 199 50 1 (fun _ => some 1)
      (by norm_num) (by norm_num)
      (fun z r h => by simp only [Option.some.injEq] at h; simp [← h])
      (by norm_num) (by rw [draftVolumes_const_one_199]; norm_num)⟩

/-! ### C2: the out-of-range behavior of the draft solver -/

/-- The spec's description of the out-of-range behavior (§4.4, §6, §8):
the two out-of-range cases are *reported conditions, not silent clamps to
a numeric draft* — i.e. when the solver reports below-minimum it does not
hand back the clamped numeric draft `zmin`, and when it reports
overloaded it does not hand back the clamped `zmax`. -/
def draftOutOfRangeNotClamped : Prop :=
  ∀ (zmin zmax : ℚ) (areaFn : ℚ → Option ℚ) (m rho : ℚ),
    ((calculate_draft zmin zmax areaFn m rho).errBelowMin = true →
      (calculate_draft zmin zmax areaFn m rho).draft ≠ zmin) ∧
    ((calculate_draft zmin zmax areaFn m rho).errOverloaded = true →
      (calculate_draft zmin zmax areaFn m rho).draft ≠ zmax)

/-- C2 counterexample: with bounds `[0, 199]`, unit areas everywhere and
target mass `0`, the solver prints the below-minimum error *and* returns
the clamped numeric draft `z_min = 0` — the out-of-range case is a
reported-and-clamped numeric result, not a status-only report. -/
theorem draft_clamp_counterexample : ¬ draftOutOfRangeNotClamped := by
  intro h
  have hres := calculate_draft_belowMin 0 199 (fun _ => some 1) 0 1
    (searchsorted_draftVolumes_eq_zero 0 199 (fun _ => some 1) 0 1 (by norm_num))
  have h2 := (h 0 199 (fun _ => some 1) 0 1).1
  rw [hres] at h2
  exact h2 rfl rfl

/-- C2 amended: when the target volume is at or below the minimum
sampled volume the solver prints the below-minimum error and returns the
clamped numeric draft `zmin`; when it exceeds every sampled volume (hull
fully submerged) it prints the overloaded error (and the capacity
warning fires exactly when the target volume exceeds the maximum sampled
displacement) and returns the clamped `zmax`.  The returned draft never
exceeds `zmax` (the deck): the out-of-range cases are reported *and*
clamped to a numeric draft, rather than being status-only reports. -/
theorem draft_out_of_range_reported_and_clamped (zmin zmax : ℚ)
    (areaFn : ℚ → Option ℚ) (m rho : ℚ)
    (hz : zmin ≤ zmax) (ha : ∀ z r, areaFn z = some r → 0 ≤ r) :
    (m / rho ≤ 0 →
      calculate_draft zmin zmax areaFn m rho =
        ⟨decide (((draftVolumes zmin zmax areaFn).getLast?).getD 0 < m / rho),
          true, false, zmin⟩) ∧
    ((draftVolumes zmin zmax areaFn).getD 199 0 < m / rho →
      calculate_draft zmin zmax areaFn m rho =
        ⟨decide (((draftVolumes zmin zmax areaFn).getLast?).getD 0 < m / rho),
          false, true, zmax⟩) ∧
    (calculate_draft zmin zmax areaFn m rho).draft ≤ zmax := by
  refine ⟨?_, ?_, (calculate_draft_range zmin zmax areaFn m rho hz).2⟩
  · intro hm
    exact calculate_draft_belowMin zmin zmax areaFn m rho
      (searchsorted_draftVolumes_eq_zero zmin zmax areaFn m rho hm)
  · intro hm
    exact calculate_draft_overloaded zmin zmax areaFn m rho
      (searchsorted_draftVolumes_ge zmin zmax areaFn m rho hz ha hm)

theorem draft_out_of_range_reported_and_clamped_witness :
    (0 : ℚ) ≤ 199 ∧
      (calculate_draft 0 199 (fun _ => some 1) 0 1).draft ≤ 199 :=
  ⟨by norm_num,
    (draft_out_of_range_reported_and_clamped 0 199 (fun _ => some 1) 0 1
      (by norm_num)
      (fun z r h => by simp only [Option.some.injEq] at h; simp [← h])).2.2⟩

/-! ## The lofting engine (`examples/scripts/generate_hull.py`, `grid_to_mesh`)

`grid_to_mesh` builds its face list purely from the grid dimensions
`nx × ny` (vertex coordinates never influence connectivity), so the face
combinatorics is embedded as a function of `nx` and `ny`:
starboard quads split into two triangles, the port mirror with reversed
winding at indices shifted by `n_stbd`, and the transom stitching at
`i = 0`.  The bow (`i = nx`) and the deck edge (`j = ny`) receive no
faces, and the mirrored centerline vertices are separate indices. -/

/-- `node_map[(i, j)] = i * (ny + 1) + j`: the vertex index of grid
point `(i, j)` in the flattened starboard grid. -/
def nodeIdx (ny i j : ℕ) : ℕ := i * (ny + 1) + j

/-- First triangle `[p0, p1, p2]` of starboard quad `(i, j)`. -/
def quadF1 (ny i j : ℕ) : ℕ × ℕ × ℕ :=
  (nodeIdx ny i j, nodeIdx ny (i + 1) j, nodeIdx ny (i + 1) (j + 1))

/-- Second triangle `[p0, p2, p3]` of starboard quad `(i, j)`. -/
def quadF2 (ny i j : ℕ) : ℕ × ℕ × ℕ :=
  (nodeIdx ny i j, nodeIdx ny (i + 1) (j + 1), nodeIdx ny i (j + 1))

/-- The starboard half-shell triangles of `grid_to_mesh`. -/
def stbdFaces (nx ny : ℕ) : List (ℕ × ℕ × ℕ) :=
  (List.range nx).flatMap (fun i =>
    (List.range ny).flatMap (fun j => [quadF1 ny i j, quadF2 ny i j]))

/-- The transom stitching faces `[s1, s0, p0]`, `[s1, p0, p1]` at `i = 0`
(`p` indices are the port copies, shifted by `nStbd`). -/
def transomFaces (nx ny : ℕ) : List (ℕ × ℕ × ℕ) :=
  (List.range ny).flatMap (fun j =>
    [(nodeIdx ny 0 (j + 1), nodeIdx ny 0 j, nodeIdx ny 0 j + (nx + 1) * (ny + 1)),
     (nodeIdx ny 0 (j + 1), nodeIdx ny 0 j + (nx + 1) * (ny + 1),
       nodeIdx ny 0 (j + 1) + (nx + 1) * (ny + 1))])

/-- The full face list of `grid_to_mesh`: starboard shell, port mirror
(`[f0 + n_stbd, f2 + n_stbd, f1 + n_stbd]`, reversed winding), transom
stitching.  No bow cap and no deck closure are emitted. -/
def gridToMeshFaces (nx ny : ℕ) : List (ℕ × ℕ × ℕ) :=
  stbdFaces nx ny ++
    (stbdFaces nx ny).map (fun f =>
      (f.1 + (nx + 1) * (ny + 1), f.2.2 + (nx + 1) * (ny + 1),
        f.2.1 + (nx + 1) * (ny + 1))) ++
    transomFaces nx ny

/-- The three directed edges of a triangle. -/
def edgesOfFace (f : ℕ × ℕ × ℕ) : List (ℕ × ℕ) :=
  [(f.1, f.2.1), (f.2.1, f.2.2), (f.2.2, f.1)]

/-- All (directed) edges of a face list. -/
def meshEdges (faces : List (ℕ × ℕ × ℕ)) : List (ℕ × ℕ) :=
  faces.flatMap edgesOfFace

/-- Whether two directed edges coincide as undirected edges. -/
def sameUndirectedEdge (e e2 : ℕ × ℕ) : Bool :=
  (e.1 == e2.1 && e.2 == e2.2) || (e.1 == e2.2 && e.2 == e2.1)

/-- How many face edges (over all faces, with multiplicity) coincide
with `e` as undirected edges: the number of triangles incident to `e`,
counting a triangle once per incident edge. -/
def edgeUseCount (faces : List (ℕ × ℕ × ℕ)) (e : ℕ × ℕ) : ℕ :=
  (meshEdges faces).countP (sameUndirectedEdge e)

/-- Closure as claimed by the spec: every undirected edge of the mesh is
incident to exactly two triangles (no boundary edges). -/
def meshClosed (faces : List (ℕ × ℕ × ℕ)) : Prop :=
  ∀ e ∈ meshEdges faces, edgeUseCount faces e = 2

/-- Count of `e` among the edges of a single face. -/
def cnt (e : ℕ × ℕ) (f : ℕ × ℕ × ℕ) : ℕ :=
  (edgesOfFace f).countP (sameUndirectedEdge e)

lemma countP_flatMap_sum {α β : Type} (p : β → Bool) (l : List α)
    (f : α → List β) :
    (l.flatMap f).countP p = (l.map fun a => (f a).countP p).sum := by
  induction l with
  | nil => rfl
  | cons x xs ih => simp [List.flatMap_cons, List.countP_append, ih]

lemma sum_map_flatMap {α β : Type} (l : List α) (f : α → List β)
    (g : β → ℕ) :
    ((l.flatMap f).map g).sum = (l.map fun a => ((f a).map g).sum).sum := by
  induction l with
  | nil => rfl
  | cons x xs ih => simp [List.flatMap_cons, ih]

lemma edgeUseCount_eq_sum_cnt (faces : List (ℕ × ℕ × ℕ)) (e : ℕ × ℕ) :
    edgeUseCount faces e = (faces.map (cnt e)).sum := by
  unfold edgeUseCount meshEdges
  rw [countP_flatMap_sum]
  rfl

lemma sameUndirectedEdge_swap (u v : ℕ) (e2 : ℕ × ℕ) :
    sameUndirectedEdge (u, v) e2 = sameUndirectedEdge (v, u) e2 := by
  unfold sameUndirectedEdge
  simp only
  cases h1 : u == e2.1 <;> cases h2 : v == e2.2 <;>
    cases h3 : u == e2.2 <;> cases h4 : v == e2.1 <;> rfl

lemma edgeUseCount_swap (faces : List (ℕ × ℕ × ℕ)) (u v : ℕ) :
    edgeUseCount faces (u, v) = edgeUseCount faces (v, u) := by
  unfold edgeUseCount
  apply List.countP_congr
  intro e2 _
  rw [sameUndirectedEdge_swap u v e2]

lemma nodeIdx_div (ny u v : ℕ) (hv : v ≤ ny) : nodeIdx ny u v / (ny + 1) = u := by
  unfold nodeIdx
  rw [mul_comm, Nat.mul_add_div (by omega), Nat.div_eq_of_lt (by omega)]
  omega

lemma nodeIdx_mod (ny u v : ℕ) (hv : v ≤ ny) : nodeIdx ny u v % (ny + 1) = v := by
  unfold nodeIdx
  rw [mul_comm, Nat.mul_add_mod, Nat.mod_eq_of_lt (by omega)]

lemma nodeIdx_inj (ny u v u2 v2 : ℕ) (hv : v ≤ ny) (hv2 : v2 ≤ ny)
    (h : nodeIdx ny u v = nodeIdx ny u2 v2) : u = u2 ∧ v = v2 := by
  constructor
  · rw [← nodeIdx_div ny u v hv, ← nodeIdx_div ny u2 v2 hv2, h]
  · rw [← nodeIdx_mod ny u v hv, ← nodeIdx_mod ny u2 v2 hv2, h]

lemma nodeIdx_lt (nx ny u v : ℕ) (hu : u ≤ nx) (hv : v ≤ ny) :
    nodeIdx ny u v < (nx + 1) * (ny + 1) := by
  unfold nodeIdx
  have h1 : u * (ny + 1) + v < (u + 1) * (ny + 1) := by
    rw [Nat.succ_mul]
    omega
  have h2 : (u + 1) * (ny + 1) ≤ (nx + 1) * (ny + 1) :=
    Nat.mul_le_mul_right _ (by omega)
  omega

/-- Undirected match of two grid edges, expressed on grid coordinates. -/
def matchE (u1 v1 u2 v2 x1 y1 x2 y2 : ℕ) : Prop :=
  (u1 = x1 ∧ v1 = y1 ∧ u2 = x2 ∧ v2 = y2) ∨
    (u1 = x2 ∧ v1 = y2 ∧ u2 = x1 ∧ v2 = y1)

instance (u1 v1 u2 v2 x1 y1 x2 y2 : ℕ) :
    Decidable (matchE u1 v1 u2 v2 x1 y1 x2 y2) := by
  unfold matchE
  infer_instance

lemma sameUndirectedEdge_nodeIdx (ny u1 v1 u2 v2 x1 y1 x2 y2 : ℕ)
    (h1 : v1 ≤ ny) (h2 : v2 ≤ ny) (h3 : y1 ≤ ny) (h4 : y2 ≤ ny) :
    sameUndirectedEdge (nodeIdx ny u1 v1, nodeIdx ny u2 v2)
        (nodeIdx ny x1 y1, nodeIdx ny x2 y2) = true ↔
      matchE u1 v1 u2 v2 x1 y1 x2 y2 := by
  unfold sameUndirectedEdge matchE
  simp only [Bool.or_eq_true, Bool.and_eq_true, beq_iff_eq]
  constructor
  · rintro (⟨ha, hb⟩ | ⟨ha, hb⟩)
    · rcases nodeIdx_inj ny u1 v1 x1 y1 h1 h3 ha with ⟨hu, hv⟩
      rcases nodeIdx_inj ny u2 v2 x2 y2 h2 h4 hb with ⟨hu2, hv2⟩
      exact Or.inl ⟨hu, hv, hu2, hv2⟩
    · rcases nodeIdx_inj ny u1 v1 x2 y2 h1 h4 ha with ⟨hu, hv⟩
      rcases nodeIdx_inj ny u2 v2 x1 y1 h2 h3 hb with ⟨hu2, hv2⟩
      exact Or.inr ⟨hu, hv, hu2, hv2⟩
  · rintro (⟨rfl, rfl, rfl, rfl⟩ | ⟨rfl, rfl, rfl, rfl⟩)
    · exact Or.inl ⟨rfl, rfl⟩
    · exact Or.inr ⟨rfl, rfl⟩

/-- Edge count of a grid edge inside a triangle whose three vertices are
grid points: one indicator per triangle side. -/
lemma cnt_face (ny u1 v1 u2 v2 c1 d1 c2 d2 c3 d3 : ℕ)
    (h1 : v1 ≤ ny) (h2 : v2 ≤ ny) (h3 : d1 ≤ ny) (h4 : d2 ≤ ny) (h5 : d3 ≤ ny) :
    cnt (nodeIdx ny u1 v1, nodeIdx ny u2 v2)
        (nodeIdx ny c1 d1, nodeIdx ny c2 d2, nodeIdx ny c3 d3) =
      (if matchE u1 v1 u2 v2 c1 d1 c2 d2 then 1 else 0) +
        (if matchE u1 v1 u2 v2 c2 d2 c3 d3 then 1 else 0) +
        (if matchE u1 v1 u2 v2 c3 d3 c1 d1 then 1 else 0) := by
  unfold cnt edgesOfFace
  simp only [List.countP_cons, List.countP_nil]
  rw [if_congr (sameUndirectedEdge_nodeIdx ny u1 v1 u2 v2 c1 d1 c2 d2 h1 h2 h3 h4) rfl rfl,
    if_congr (sameUndirectedEdge_nodeIdx ny u1 v1 u2 v2 c2 d2 c3 d3 h1 h2 h4 h5) rfl rfl,
    if_congr (sameUndirectedEdge_nodeIdx ny u1 v1 u2 v2 c3 d3 c1 d1 h1 h2 h5 h3) rfl rfl]
  omega

lemma cnt_quad_horizontal (ny a jh i j : ℕ) (hj : j < ny) (hjh : jh ≤ ny) :
    cnt (nodeIdx ny a jh, nodeIdx ny (a + 1) jh) (quadF1 ny i j) +
      cnt (nodeIdx ny a jh, nodeIdx ny (a + 1) jh) (quadF2 ny i j) =
      (if i = a ∧ j = jh then 1 else 0) +
        (if i = a ∧ j + 1 = jh then 1 else 0) := by
  unfold quadF1 quadF2
  rw [cnt_face ny a jh (a + 1) jh i j (i + 1) j (i + 1) (j + 1)
      hjh hjh (by omega) (by omega) (by omega),
    cnt_face ny a jh (a + 1) jh i j (i + 1) (j + 1) i (j + 1)
      hjh hjh (by omega) (by omega) (by omega)]
  rw [if_congr (show matchE a jh (a + 1) jh i j (i + 1) j ↔ (i = a ∧ j = jh) by
      unfold matchE; omega) rfl rfl,
    if_neg (show ¬ matchE a jh (a + 1) jh (i + 1) j (i + 1) (j + 1) by
      unfold matchE; omega),
    if_neg (show ¬ matchE a jh (a + 1) jh (i + 1) (j + 1) i j by
      unfold matchE; omega),
    if_neg (show ¬ matchE a jh (a + 1) jh i j (i + 1) (j + 1) by
      unfold matchE; omega),
    if_congr (show matchE a jh (a + 1) jh (i + 1) (j + 1) i (j + 1) ↔
        (i = a ∧ j + 1 = jh) by unfold matchE; omega) rfl rfl,
    if_neg (show ¬ matchE a jh (a + 1) jh i (j + 1) i j by
      unfold matchE; omega)]
  omega

lemma cnt_quad_vertical (ny ia b i j : ℕ) (hj : j < ny) (hb : b < ny) :
    cnt (nodeIdx ny ia b, nodeIdx ny ia (b + 1)) (quadF1 ny i j) +
      cnt (nodeIdx ny ia b, nodeIdx ny ia (b + 1)) (quadF2 ny i j) =
      (if i + 1 = ia ∧ j = b then 1 else 0) +
        (if i = ia ∧ j = b then 1 else 0) := by
  unfold quadF1 quadF2
  rw [cnt_face ny ia b ia (b + 1) i j (i + 1) j (i + 1) (j + 1)
      (by omega) (by omega) (by omega) (by omega) (by omega),
    cnt_face ny ia b ia (b + 1) i j (i + 1) (j + 1) i (j + 1)
      (by omega) (by omega) (by omega) (by omega) (by omega)]
  rw [if_neg (show ¬ matchE ia b ia (b + 1) i j (i + 1) j by
      unfold matchE; omega),
    if_congr (show matchE ia b ia (b + 1) (i + 1) j (i + 1) (j + 1) ↔
        (i + 1 = ia ∧ j = b) by unfold matchE; omega) rfl rfl,
    if_neg (show ¬ matchE ia b ia (b + 1) (i + 1) (j + 1) i j by
      unfold matchE; omega),
    if_neg (show ¬ matchE ia b ia (b + 1) i j (i + 1) (j + 1) by
      unfold matchE; omega),
    if_neg (show ¬ matchE ia b ia (b + 1) (i + 1) (j + 1) i (j + 1) by
      unfold matchE; omega),
    if_congr (show matchE ia b ia (b + 1) i (j + 1) i j ↔
        (i = ia ∧ j = b) by unfold matchE; omega) rfl rfl]
  omega

lemma sum_indicator_range (n t : ℕ) (ht : t < n) :
    ((List.range n).map (fun k => if k = t then 1 else 0)).sum = 1 := by
  induction n with
  | zero => omega
  | succ n ih =>
      rw [List.range_succ, List.map_append, List.sum_append]
      by_cases h : t = n
      · subst h
        have hz : ((List.range t).map (fun k => if k = t then 1 else 0)).sum = 0 := by
          apply List.sum_eq_zero
          intro x hx
          rcases List.mem_map.mp hx with ⟨k, hk, rfl⟩
          have : k < t := List.mem_range.mp hk
          simp [Nat.ne_of_lt this]
        rw [hz]
        simp
      · have ht2 : t < n := by omega
        rw [ih ht2]
        have hne : n ≠ t := by omega
        simp [hne]

lemma stbd_sum_pair (nx ny : ℕ) (e : ℕ × ℕ) :
    ((stbdFaces nx ny).map (cnt e)).sum =
      ((List.range nx).map (fun i =>
        ((List.range ny).map (fun j =>
          cnt e (quadF1 ny i j) + cnt e (quadF2 ny i j))).sum)).sum := by
  unfold stbdFaces
  rw [sum_map_flatMap]
  refine congrArg _ (List.map_congr_left ?_)
  intro i _
  rw [sum_map_flatMap]
  refine congrArg _ (List.map_congr_left ?_)
  intro j _
  simp

lemma stbd_sum_deck (nx ny a : ℕ) (hny : 1 ≤ ny) (ha : a < nx) :
    ((stbdFaces nx ny).map
      (cnt (nodeIdx ny a ny, nodeIdx ny (a + 1) ny))).sum = 1 := by
  rw [stbd_sum_pair]
  have hinner : ∀ i ∈ List.range nx,
      ((List.range ny).map (fun j =>
        cnt (nodeIdx ny a ny, nodeIdx ny (a + 1) ny) (quadF1 ny i j) +
          cnt (nodeIdx ny a ny, nodeIdx ny (a + 1) ny) (quadF2 ny i j))).sum =
        if i = a then 1 else 0 := by
    intro i _
    have hmap : ∀ j ∈ List.range ny,
        cnt (nodeIdx ny a ny, nodeIdx ny (a + 1) ny) (quadF1 ny i j) +
          cnt (nodeIdx ny a ny, nodeIdx ny (a + 1) ny) (quadF2 ny i j) =
        if i = a then (if j = ny - 1 then 1 else 0) else 0 := by
      intro j hj
      have hjlt : j < ny := List.mem_range.mp hj
      rw [cnt_quad_horizontal ny a ny i j hjlt (le_refl ny)]
      split_ifs <;> omega
    rw [List.map_congr_left hmap]
    by_cases hia : i = a
    · simp only [hia, if_pos rfl]
      exact sum_indicator_range ny (ny - 1) (by omega)
    · simp only [if_neg hia]
      simp
  rw [List.map_congr_left hinner]
  exact sum_indicator_range nx a ha

lemma stbd_sum_keel (nx ny a : ℕ) (hny : 1 ≤ ny) (ha : a < nx) :
    ((stbdFaces nx ny).map
      (cnt (nodeIdx ny a 0, nodeIdx ny (a + 1) 0))).sum = 1 := by
  rw [stbd_sum_pair]
  have hinner : ∀ i ∈ List.range nx,
      ((List.range ny).map (fun j =>
        cnt (nodeIdx ny a 0, nodeIdx ny (a + 1) 0) (quadF1 ny i j) +
          cnt (nodeIdx ny a 0, nodeIdx ny (a + 1) 0) (quadF2 ny i j))).sum =
        if i = a then 1 else 0 := by
    intro i _
    have hmap : ∀ j ∈ List.range ny,
        cnt (nodeIdx ny a 0, nodeIdx ny (a + 1) 0) (quadF1 ny i j) +
          cnt (nodeIdx ny a 0, nodeIdx ny (a + 1) 0) (quadF2 ny i j) =
        if i = a then (if j = 0 then 1 else 0) else 0 := by
      intro j hj
      have hjlt : j < ny := List.mem_range.mp hj
      rw [cnt_quad_horizontal ny a 0 i j hjlt (by omega),
        if_neg (show ¬ (i = a ∧ j + 1 = 0) by omega)]
      split_ifs <;> omega
    rw [List.map_congr_left hmap]
    by_cases hia : i = a
    · simp only [hia, if_pos rfl]
      exact sum_indicator_range ny 0 (by omega)
    · simp only [if_neg hia]
      simp
  rw [List.map_congr_left hinner]
  exact sum_indicator_range nx a ha

lemma sum_map_add (l : List ℕ) (f g : ℕ → ℕ) :
    (l.map (fun x => f x + g x)).sum = (l.map f).sum + (l.map g).sum := by
  induction l with
  | nil => rfl
  | cons x xs ih => simp [ih]; omega

lemma sum_indicator_range_ge (n t : ℕ) (ht : n ≤ t) :
    ((List.range n).map (fun k => if k = t then 1 else 0)).sum = 0 := by
  apply List.sum_eq_zero
  intro x hx
  rcases List.mem_map.mp hx with ⟨k, hk, rfl⟩
  have : k < n := List.mem_range.mp hk
  have hne : k ≠ t := by omega
  simp [hne]

lemma stbd_sum_vertical (nx ny ia b : ℕ) (hb : b < ny) (hia : ia ≤ nx) :
    ((stbdFaces nx ny).map
      (cnt (nodeIdx ny ia b, nodeIdx ny ia (b + 1)))).sum =
      (if 1 ≤ ia then 1 else 0) + (if ia < nx then 1 else 0) := by
  rw [stbd_sum_pair]
  have hinner : ∀ i ∈ List.range nx,
      ((List.range ny).map (fun j =>
        cnt (nodeIdx ny ia b, nodeIdx ny ia (b + 1)) (quadF1 ny i j) +
          cnt (nodeIdx ny ia b, nodeIdx ny ia (b + 1)) (quadF2 ny i j))).sum =
        (fun i => (if 1 ≤ ia ∧ i = ia - 1 then 1 else 0) +
          (if i = ia then 1 else 0)) i := by
    intro i _
    have hmap : ∀ j ∈ List.range ny,
        cnt (nodeIdx ny ia b, nodeIdx ny ia (b + 1)) (quadF1 ny i j) +
          cnt (nodeIdx ny ia b, nodeIdx ny ia (b + 1)) (quadF2 ny i j) =
        if (1 ≤ ia ∧ i = ia - 1) ∨ i = ia then (if j = b then 1 else 0) else 0 := by
      intro j hj
      have hjlt : j < ny := List.mem_range.mp hj
      rw [cnt_quad_vertical ny ia b i j hjlt hb]
      split_ifs <;> omega
    rw [List.map_congr_left hmap]
    simp only
    by_cases hcase : (1 ≤ ia ∧ i = ia - 1) ∨ i = ia
    · have hmap2 : ∀ j ∈ List.range ny,
          (if (1 ≤ ia ∧ i = ia - 1) ∨ i = ia then
            (if j = b then (1 : ℕ) else 0) else 0) =
            (fun k => if k = b then (1 : ℕ) else 0) j := by
        intro j _
        simp only [if_pos hcase]
      rw [List.map_congr_left hmap2, sum_indicator_range ny b hb]
      rcases hcase with h | h
      · rw [if_pos h, if_neg (show ¬ i = ia by omega)]
      · by_cases h2 : 1 ≤ ia ∧ i = ia - 1
        · omega
        · rw [if_neg h2, if_pos h]
    · have hmap2 : ∀ j ∈ List.range ny,
          (if (1 ≤ ia ∧ i = ia - 1) ∨ i = ia then
            (if j = b then (1 : ℕ) else 0) else 0) = (fun _ => (0 : ℕ)) j := by
        intro j _
        simp only [if_neg hcase]
      rw [List.map_congr_left hmap2]
      rw [if_neg (fun h => hcase (Or.inl h)), if_neg (fun h => hcase (Or.inr h))]
      simp
  rw [List.map_congr_left hinner]
  rw [show (fun i => (if 1 ≤ ia ∧ i = ia - 1 then 1 else 0) +
      (if i = ia then 1 else 0)) = (fun i =>
        (fun k => if 1 ≤ ia ∧ k = ia - 1 then 1 else 0) i +
          (fun k => if k = ia then 1 else 0) i) from rfl]
  rw [sum_map_add]
  have hS1 : ((List.range nx).map
      (fun k => if 1 ≤ ia ∧ k = ia - 1 then 1 else 0)).sum =
      if 1 ≤ ia then 1 else 0 := by
    by_cases h1 : 1 ≤ ia
    · have hcongr : ∀ k ∈ List.range nx,
          (if 1 ≤ ia ∧ k = ia - 1 then 1 else 0) =
            (fun t => if t = ia - 1 then 1 else 0) k := by
        intro k _
        simp only
        split_ifs <;> omega
      rw [List.map_congr_left hcongr, if_pos h1]
      exact sum_indicator_range nx (ia - 1) (by omega)
    · rw [if_neg h1]
      apply List.sum_eq_zero
      intro x hx
      rcases List.mem_map.mp hx with ⟨k, _, rfl⟩
      rw [if_neg (by omega)]
  have hS2 : ((List.range nx).map (fun k => if k = ia then 1 else 0)).sum =
      if ia < nx then 1 else 0 := by
    by_cases h2 : ia < nx
    · rw [if_pos h2]
      exact sum_indicator_range nx ia h2
    · rw [if_neg h2]
      exact sum_indicator_range_ge nx ia (by omega)
  rw [hS1, hS2]

lemma stbdFaces_bound (nx ny : ℕ) : ∀ f ∈ stbdFaces nx ny,
    f.1 < (nx + 1) * (ny + 1) ∧ f.2.1 < (nx + 1) * (ny + 1) ∧
      f.2.2 < (nx + 1) * (ny + 1) := by
  intro f hf
  unfold stbdFaces at hf
  rcases List.mem_flatMap.mp hf with ⟨i, hi, hf2⟩
  rcases List.mem_flatMap.mp hf2 with ⟨j, hj, hf3⟩
  have hilt : i < nx := List.mem_range.mp hi
  have hjlt : j < ny := List.mem_range.mp hj
  have hf4 : f = quadF1 ny i j ∨ f = quadF2 ny i j := by
    simpa using hf3
  rcases hf4 with rfl | rfl
  · exact ⟨nodeIdx_lt nx ny i j (by omega) (by omega),
      nodeIdx_lt nx ny (i + 1) j (by omega) (by omega),
      nodeIdx_lt nx ny (i + 1) (j + 1) (by omega) (by omega)⟩
  · exact ⟨nodeIdx_lt nx ny i j (by omega) (by omega),
      nodeIdx_lt nx ny (i + 1) (j + 1) (by omega) (by omega),
      nodeIdx_lt nx ny i (j + 1) (by omega) (by omega)⟩

lemma cnt_zero_of_big (e : ℕ × ℕ) (x y z NS : ℕ)
    (he1 : e.1 < NS) (he2 : e.2 < NS)
    (hx : NS ≤ x) (hy : NS ≤ y) (hz : NS ≤ z) :
    cnt e (x, y, z) = 0 := by
  unfold cnt edgesOfFace sameUndirectedEdge
  simp only [List.countP_cons, List.countP_nil, Bool.or_eq_true,
    Bool.and_eq_true, beq_iff_eq]
  split_ifs <;> omega

/-- A grid edge whose two endpoints are starboard indices is never an
edge of the mirrored port shell (all port indices are ≥ `n_stbd`). -/
lemma port_sum_zero (nx ny u1 v1 u2 v2 : ℕ)
    (h1 : u1 ≤ nx) (hv1 : v1 ≤ ny) (h2 : u2 ≤ nx) (hv2 : v2 ≤ ny) :
    (((stbdFaces nx ny).map (fun f =>
        (f.1 + (nx + 1) * (ny + 1), f.2.2 + (nx + 1) * (ny + 1),
          f.2.1 + (nx + 1) * (ny + 1)))).map
      (cnt (nodeIdx ny u1 v1, nodeIdx ny u2 v2))).sum = 0 := by
  apply List.sum_eq_zero
  intro x hx
  rcases List.mem_map.mp hx with ⟨g, hg, rfl⟩
  rcases List.mem_map.mp hg with ⟨f, hf, rfl⟩
  have hb := stbdFaces_bound nx ny f hf
  exact cnt_zero_of_big _ _ _ _ ((nx + 1) * (ny + 1))
    (nodeIdx_lt nx ny u1 v1 h1 hv1) (nodeIdx_lt nx ny u2 v2 h2 hv2)
    (by omega) (by omega) (by omega)

set_option maxHeartbeats 1000000 in
lemma transom_cnt1_horizontal (nx ny a jh j : ℕ) (hny : 1 ≤ ny)
    (hjh : jh ≤ ny) (ha : a + 1 ≤ nx) (hj : j < ny) :
    cnt (nodeIdx ny a jh, nodeIdx ny (a + 1) jh)
      (nodeIdx ny 0 (j + 1), nodeIdx ny 0 j,
        nodeIdx ny 0 j + (nx + 1) * (ny + 1)) = 0 := by
  have he1 : nodeIdx ny a jh < (nx + 1) * (ny + 1) :=
    nodeIdx_lt nx ny a jh (by omega) hjh
  have he2 : nodeIdx ny (a + 1) jh < (nx + 1) * (ny + 1) :=
    nodeIdx_lt nx ny (a + 1) jh (by omega) hjh
  unfold nodeIdx at he1 he2
  unfold cnt edgesOfFace sameUndirectedEdge nodeIdx
  simp only [List.countP_cons, List.countP_nil, Bool.or_eq_true,
    Bool.and_eq_true, beq_iff_eq, Nat.add_mul, Nat.one_mul, Nat.zero_mul,
    Nat.zero_add, eq_self_iff_true, true_and, and_true] at he1 he2 ⊢
  split_ifs <;> omega

set_option maxHeartbeats 1000000 in
lemma transom_cnt2_horizontal (nx ny a jh j : ℕ) (hny : 1 ≤ ny)
    (hjh : jh ≤ ny) (ha : a + 1 ≤ nx) (hj : j < ny) :
    cnt (nodeIdx ny a jh, nodeIdx ny (a + 1) jh)
      (nodeIdx ny 0 (j + 1), nodeIdx ny 0 j + (nx + 1) * (ny + 1),
        nodeIdx ny 0 (j + 1) + (nx + 1) * (ny + 1)) = 0 := by
  have he1 : nodeIdx ny a jh < (nx + 1) * (ny + 1) :=
    nodeIdx_lt nx ny a jh (by omega) hjh
  have he2 : nodeIdx ny (a + 1) jh < (nx + 1) * (ny + 1) :=
    nodeIdx_lt nx ny (a + 1) jh (by omega) hjh
  unfold nodeIdx at he1 he2
  unfold cnt edgesOfFace sameUndirectedEdge nodeIdx
  simp only [List.countP_cons, List.countP_nil, Bool.or_eq_true,
    Bool.and_eq_true, beq_iff_eq, Nat.add_mul, Nat.one_mul, Nat.zero_mul,
    Nat.zero_add, eq_self_iff_true, true_and, and_true] at he1 he2 ⊢
  split_ifs <;> omega

set_option maxHeartbeats 1000000 in
lemma transom_cnt1_vertical (nx ny ia b j : ℕ) (hny : 1 ≤ ny) (hb : b < ny)
    (hia : ia ≤ nx) (hj : j < ny) :
    cnt (nodeIdx ny ia b, nodeIdx ny ia (b + 1))
      (nodeIdx ny 0 (j + 1), nodeIdx ny 0 j,
        nodeIdx ny 0 j + (nx + 1) * (ny + 1)) =
      if ia = 0 ∧ j = b then 1 else 0 := by
  have he1 : nodeIdx ny ia b < (nx + 1) * (ny + 1) :=
    nodeIdx_lt nx ny ia b hia (by omega)
  have he2 : nodeIdx ny ia (b + 1) < (nx + 1) * (ny + 1) :=
    nodeIdx_lt nx ny ia (b + 1) hia (by omega)
  rcases Nat.eq_zero_or_pos ia with h0 | hpos
  · subst h0
    unfold nodeIdx at he1 he2
    unfold cnt edgesOfFace sameUndirectedEdge nodeIdx
    simp only [List.countP_cons, List.countP_nil, Bool.or_eq_true,
      Bool.and_eq_true, beq_iff_eq, Nat.add_mul, Nat.one_mul, Nat.zero_mul,
      Nat.zero_add, eq_self_iff_true, true_and, and_true] at he1 he2 ⊢
    split_ifs <;> omega
  · have hCge : ny + 1 ≤ ia * (ny + 1) := by
      have := Nat.mul_le_mul_right (ny + 1) hpos
      simpa using this
    rw [if_neg (by omega)]
    unfold nodeIdx at he1 he2
    unfold cnt edgesOfFace sameUndirectedEdge nodeIdx
    simp only [List.countP_cons, List.countP_nil, Bool.or_eq_true,
      Bool.and_eq_true, beq_iff_eq, Nat.add_mul, Nat.one_mul, Nat.zero_mul,
      Nat.zero_add, eq_self_iff_true, true_and, and_true] at he1 he2 ⊢
    split_ifs <;> omega

set_option maxHeartbeats 1000000 in
lemma transom_cnt2_vertical (nx ny ia b j : ℕ) (hny : 1 ≤ ny) (hb : b < ny)
    (hia : ia ≤ nx) (hj : j < ny) :
    cnt (nodeIdx ny ia b, nodeIdx ny ia (b + 1))
      (nodeIdx ny 0 (j + 1), nodeIdx ny 0 j + (nx + 1) * (ny + 1),
        nodeIdx ny 0 (j + 1) + (nx + 1) * (ny + 1)) = 0 := by
  have he1 : nodeIdx ny ia b < (nx + 1) * (ny + 1) :=
    nodeIdx_lt nx ny ia b hia (by omega)
  have he2 : nodeIdx ny ia (b + 1) < (nx + 1) * (ny + 1) :=
    nodeIdx_lt nx ny ia (b + 1) hia (by omega)
  unfold nodeIdx at he1 he2
  unfold cnt edgesOfFace sameUndirectedEdge nodeIdx
  simp only [List.countP_cons, List.countP_nil, Bool.or_eq_true,
    Bool.and_eq_true, beq_iff_eq, Nat.add_mul, Nat.one_mul, Nat.zero_mul,
    Nat.zero_add, eq_self_iff_true, true_and, and_true] at he1 he2 ⊢
  split_ifs <;> omega

lemma transom_sum_pair (nx ny : ℕ) (e : ℕ × ℕ) :
    ((transomFaces nx ny).map (cnt e)).sum =
      ((List.range ny).map (fun j =>
        cnt e (nodeIdx ny 0 (j + 1), nodeIdx ny 0 j,
          nodeIdx ny 0 j + (nx + 1) * (ny + 1)) +
        cnt e (nodeIdx ny 0 (j + 1), nodeIdx ny 0 j + (nx + 1) * (ny + 1),
          nodeIdx ny 0 (j + 1) + (nx + 1) * (ny + 1)))).sum := by
  unfold transomFaces
  rw [sum_map_flatMap]
  refine congrArg _ (List.map_congr_left ?_)
  intro j _
  simp

lemma transom_sum_horizontal (nx ny a jh : ℕ) (hny : 1 ≤ ny)
    (hjh : jh ≤ ny) (ha : a + 1 ≤ nx) :
    ((transomFaces nx ny).map
      (cnt (nodeIdx ny a jh, nodeIdx ny (a + 1) jh))).sum = 0 := by
  rw [transom_sum_pair]
  apply List.sum_eq_zero
  intro x hx
  rcases List.mem_map.mp hx with ⟨j, hj, rfl⟩
  rw [transom_cnt1_horizontal nx ny a jh j hny hjh ha (List.mem_range.mp hj),
    transom_cnt2_horizontal nx ny a jh j hny hjh ha (List.mem_range.mp hj)]
  rfl

lemma transom_sum_vertical (nx ny ia b : ℕ) (hny : 1 ≤ ny) (hb : b < ny)
    (hia : ia ≤ nx) :
    ((transomFaces nx ny).map
      (cnt (nodeIdx ny ia b, nodeIdx ny ia (b + 1)))).sum =
      if ia = 0 then 1 else 0 := by
  rw [transom_sum_pair]
  have hcongr : ∀ j ∈ List.range ny,
      (cnt (nodeIdx ny ia b, nodeIdx ny ia (b + 1))
          (nodeIdx ny 0 (j + 1), nodeIdx ny 0 j,
            nodeIdx ny 0 j + (nx + 1) * (ny + 1)) +
        cnt (nodeIdx ny ia b, nodeIdx ny ia (b + 1))
          (nodeIdx ny 0 (j + 1), nodeIdx ny 0 j + (nx + 1) * (ny + 1),
            nodeIdx ny 0 (j + 1) + (nx + 1) * (ny + 1))) =
      (fun k => if ia = 0 then (if k = b then (1 : ℕ) else 0) else 0) j := by
    intro j hj
    rw [transom_cnt1_vertical nx ny ia b j hny hb hia (List.mem_range.mp hj),
      transom_cnt2_vertical nx ny ia b j hny hb hia (List.mem_range.mp hj)]
    dsimp only
    split_ifs <;> omega
  rw [List.map_congr_left hcongr]
  by_cases h0 : ia = 0
  · simp only [if_pos h0]
    exact sum_indicator_range ny b hb
  · simp only [if_neg h0]
    simp

lemma edgeUseCount_grid_split (nx ny : ℕ) (e : ℕ × ℕ) :
    edgeUseCount (gridToMeshFaces nx ny) e =
      ((stbdFaces nx ny).map (cnt e)).sum +
        (((stbdFaces nx ny).map (fun f =>
          (f.1 + (nx + 1) * (ny + 1), f.2.2 + (nx + 1) * (ny + 1),
            f.2.1 + (nx + 1) * (ny + 1)))).map (cnt e)).sum +
        ((transomFaces nx ny).map (cnt e)).sum := by
  rw [edgeUseCount_eq_sum_cnt]
  unfold gridToMeshFaces
  rw [List.map_append, List.map_append, List.sum_append, List.sum_append]

/-- Each deck-edge (`j = ny`) of the starboard shell bounds exactly one
triangle: the deck is never closed. -/
lemma edgeUseCount_deck (nx ny a : ℕ) (hny : 1 ≤ ny) (ha : a < nx) :
    edgeUseCount (gridToMeshFaces nx ny)
      (nodeIdx ny a ny, nodeIdx ny (a + 1) ny) = 1 := by
  rw [edgeUseCount_grid_split, stbd_sum_deck nx ny a hny ha,
    port_sum_zero nx ny a ny (a + 1) ny (by omega) (by omega) (by omega) (by omega),
    transom_sum_horizontal nx ny a ny hny (by omega) (by omega)]

/-- Each keel-centerline edge (`j = 0`) of the starboard shell bounds
exactly one triangle: the mirrored centerline vertices are duplicated,
not merged, so the keel seam stays open (by vertex index). -/
lemma edgeUseCount_keel (nx ny a : ℕ) (hny : 1 ≤ ny) (ha : a < nx) :
    edgeUseCount (gridToMeshFaces nx ny)
      (nodeIdx ny a 0, nodeIdx ny (a + 1) 0) = 1 := by
  rw [edgeUseCount_grid_split, stbd_sum_keel nx ny a hny ha,
    port_sum_zero nx ny a 0 (a + 1) 0 (by omega) (by omega) (by omega) (by omega),
    transom_sum_horizontal nx ny a 0 hny (by omega) (by omega)]

/-- Each bow-ring edge (`i = nx`) bounds exactly one triangle: the bow
station is never capped by `grid_to_mesh`. -/
lemma edgeUseCount_bow (nx ny b : ℕ) (hnx : 1 ≤ nx) (hny : 1 ≤ ny)
    (hb : b < ny) :
    edgeUseCount (gridToMeshFaces nx ny)
      (nodeIdx ny nx b, nodeIdx ny nx (b + 1)) = 1 := by
  rw [edgeUseCount_grid_split, stbd_sum_vertical nx ny nx b hb (le_refl nx),
    port_sum_zero nx ny nx b nx (b + 1) (by omega) (by omega) (by omega) (by omega),
    transom_sum_vertical nx ny nx b hny hb (le_refl nx)]
  rw [if_pos hnx, if_neg (by omega), if_neg (by omega)]

/-- Each stern-ring edge (`i = 0`) is shared by exactly two triangles:
one starboard quad triangle and one transom stitching triangle — the
transom seam is properly closed. -/
lemma edgeUseCount_stern (nx ny b : ℕ) (hnx : 1 ≤ nx) (hny : 1 ≤ ny)
    (hb : b < ny) :
    edgeUseCount (gridToMeshFaces nx ny)
      (nodeIdx ny 0 b, nodeIdx ny 0 (b + 1)) = 2 := by
  rw [edgeUseCount_grid_split, stbd_sum_vertical nx ny 0 b hb (by omega),
    port_sum_zero nx ny 0 b 0 (b + 1) (by omega) (by omega) (by omega) (by omega),
    transom_sum_vertical nx ny 0 b hny hb (by omega)]
  rw [if_pos (show 0 < nx by omega), if_pos rfl]
  norm_num

/-- The reversed deck edge of quad `(a, ny-1)` is an edge of the mesh. -/
lemma deckEdge_mem (nx ny a : ℕ) (hny : 1 ≤ ny) (ha : a < nx) :
    (nodeIdx ny (a + 1) ny, nodeIdx ny a ny) ∈
      meshEdges (gridToMeshFaces nx ny) := by
  unfold meshEdges
  apply List.mem_flatMap.mpr
  refine ⟨quadF2 ny a (ny - 1), ?_, ?_⟩
  · unfold gridToMeshFaces
    apply List.mem_append.mpr
    left
    apply List.mem_append.mpr
    left
    unfold stbdFaces
    apply List.mem_flatMap.mpr
    refine ⟨a, List.mem_range.mpr ha, ?_⟩
    apply List.mem_flatMap.mpr
    refine ⟨ny - 1, List.mem_range.mpr (by omega), ?_⟩
    simp
  · unfold edgesOfFace quadF2
    have h1 : ny - 1 + 1 = ny := by omega
    rw [h1]
    simp

/-- Whenever the grid has at least one quad, the lofted mesh is not
closed (the deck edges are boundary edges). -/
lemma gridToMesh_not_closed (nx ny : ℕ) (hnx : 1 ≤ nx) (hny : 1 ≤ ny) :
    ¬ meshClosed (gridToMeshFaces nx ny) := by
  intro h
  have hc := h _ (deckEdge_mem nx ny 0 hny (by omega))
  rw [edgeUseCount_swap] at hc
  rw [edgeUseCount_deck nx ny 0 hny (by omega)] at hc
  exact absurd hc (by norm_num)

/-- C1 counterexample: at the Europe IIa barge grid resolution
(`nx = 60`, `ny = 15`, the values hardcoded in
`generate_europe_iia_barge`), the mesh produced by `grid_to_mesh` is not
closed — there is a mesh edge (a deck edge of the starboard shell)
incident to exactly one triangle, so "every undirected edge is incident
to exactly two triangles" fails. -/
theorem loft_closure_counterexample : ¬ meshClosed (gridToMeshFaces 60 15) :=
  gridToMesh_not_closed 60 15 (by norm_num) (by norm_num)

/-- C1 amended: `grid_to_mesh` closes only the transom seam.  For every
grid with at least one quad, every deck edge (`j = ny`), every
keel-centerline edge (`j = 0`, duplicated rather than merged by the
mirror), and every bow-ring edge (`i = nx`, never capped) is incident to
exactly one triangle — a boundary edge — while each stern-ring edge
(`i = 0`) is properly shared by two triangles thanks to the transom
stitching; hence the lofted surface is not closed. -/
theorem loft_boundary_structure (nx ny a b : ℕ)
    (hnx : 1 ≤ nx) (hny : 1 ≤ ny) (ha : a < nx) (hb : b < ny) :
    edgeUseCount (gridToMeshFaces nx ny)
        (nodeIdx ny a ny, nodeIdx ny (a + 1) ny) = 1 ∧
      edgeUseCount (gridToMeshFaces nx ny)
        (nodeIdx ny a 0, nodeIdx ny (a + 1) 0) = 1 ∧
      edgeUseCount (gridToMeshFaces nx ny)
        (nodeIdx ny nx b, nodeIdx ny nx (b + 1)) = 1 ∧
      edgeUseCount (gridToMeshFaces nx ny)
        (nodeIdx ny 0 b, nodeIdx ny 0 (b + 1)) = 2 ∧
      ¬ meshClosed (gridToMeshFaces nx ny) :=
  ⟨edgeUseCount_deck nx ny a hny ha,
    edgeUseCount_keel nx ny a hny ha,
    edgeUseCount_bow nx ny b hnx hny hb,
    edgeUseCount_stern nx ny b hnx hny hb,
    gridToMesh_not_closed nx ny hnx hny⟩

theorem loft_boundary_structure_witness :
    (1 ≤ 60 ∧ 1 ≤ 15 ∧ 5 < 60 ∧ 3 < 15) ∧
      (edgeUseCount (gridToMeshFaces 60 15)
          (nodeIdx 15 5 15, nodeIdx 15 (5 + 1) 15) = 1 ∧
        edgeUseCount (gridToMeshFaces 60 15)
          (nodeIdx 15 5 0, nodeIdx 15 (5 + 1) 0) = 1 ∧
        edgeUseCount (gridToMeshFaces 60 15)
          (nodeIdx 15 60 3, nodeIdx 15 60 (3 + 1)) = 1 ∧
        edgeUseCount (gridToMeshFaces 60 15)
          (nodeIdx 15 0 3, nodeIdx 15 0 (3 + 1)) = 2 ∧
        ¬ meshClosed (gridToMeshFaces 60 15)) :=
  ⟨⟨by norm_num, by norm_num, by norm_num, by norm_num⟩,
    loft_boundary_structure 60 15 5 3 (by norm_num) (by norm_num)
      (by norm_num) (by norm_num)⟩

/-! ## Hull verification report status (`scripts/verify_hull.py` and
`scripts/core/verify_hull.py`)

Both scripts read the mesh, record `watertight` and
`winding_consistent` in the report, compute `passed_integrity` and
`passed_dimensions`, set `status` to APPROVED or REJECTED, write the
report, and — when the status is not APPROVED — log
"proceeding (soft failure)" and call `sys.exit(0)`. -/

inductive HullStatus
  | APPROVED
  | REJECTED
deriving DecidableEq

/-- `scripts/verify_hull.py`:
`passed_integrity = is_watertight and is_winding_consistent`;
`status = APPROVED if passed_integrity and passed_dimensions`. -/
def verify_hull_status (watertight winding_consistent passed_dimensions : Bool) :
    HullStatus :=
  if (watertight && winding_consistent) && passed_dimensions then
    HullStatus.APPROVED
  else HullStatus.REJECTED

/-- `scripts/core/verify_hull.py`:
`passed_integrity = is_watertight  # Relax winding check?` — the winding
flag is recorded in the report but not required for approval. -/
def core_verify_hull_status (watertight winding_consistent passed_dimensions : Bool) :
    HullStatus :=
  if watertight && passed_dimensions then HullStatus.APPROVED
  else HullStatus.REJECTED

/-- The process exit code of `main` after the report is written: the
REJECTED path logs a warning and calls `sys.exit(0)`; the APPROVED path
falls off the end of `main` (exit code 0 as well). -/
def verify_hull_exitCode : HullStatus → ℕ
  | HullStatus.APPROVED => 0
  | HullStatus.REJECTED => 0

/-- The claim: in both verification scripts, APPROVED requires both
integrity checks to pass, and an integrity failure fails the pipeline
stage (a REJECTED verification exits with a nonzero code). -/
def integrityGatesApproval : Prop :=
  (∀ w wc pd, verify_hull_status w wc pd = HullStatus.APPROVED →
    w = true ∧ wc = true) ∧
  (∀ w wc pd, core_verify_hull_status w wc pd = HullStatus.APPROVED →
    w = true ∧ wc = true) ∧
  verify_hull_exitCode HullStatus.REJECTED ≠ 0

/-- C7 counterexample: `scripts/core/verify_hull.py` approves a mesh
whose winding check failed (`watertight = true`,
`winding_consistent = false`, dimensions passed give APPROVED), and a
REJECTED verification exits with code 0 ("soft failure"), so the stage
does not fail. -/
theorem verify_hull_gate_counterexample : ¬ integrityGatesApproval := by
  intro h
  have h2 := h.2.1 true false true
  have h3 : core_verify_hull_status true false true = HullStatus.APPROVED := by
    rfl
  have h4 := h2 h3
  simp at h4

/-- C7 amended: in `scripts/verify_hull.py`, APPROVED holds exactly when
the mesh is watertight, consistently wound, and the dimension checks
pass; in `scripts/core/verify_hull.py` the winding check is recorded but
not required (APPROVED exactly when watertight and dimensions pass), so
a watertight but inconsistently wound mesh is approved there; and in
both scripts a REJECTED status is a soft failure: the process still
exits with code 0, so the pipeline stage is not failed. -/
theorem verify_hull_status_characterization :
    (∀ w wc pd, verify_hull_status w wc pd = HullStatus.APPROVED ↔
      (w = true ∧ wc = true ∧ pd = true)) ∧
    (∀ w wc pd, core_verify_hull_status w wc pd = HullStatus.APPROVED ↔
      (w = true ∧ pd = true)) ∧
    core_verify_hull_status true false true = HullStatus.APPROVED ∧
    verify_hull_exitCode HullStatus.APPROVED = 0 ∧
    verify_hull_exitCode HullStatus.REJECTED = 0 := by
  refine ⟨?_, ?_, rfl, rfl, rfl⟩
  · intro w wc pd
    cases w <;> cases wc <;> cases pd <;> simp [verify_hull_status]
  · intro w wc pd
    cases w <;> cases pd <;> simp [core_verify_hull_status]

/-! ## The ASCII STL writer (`examples/scripts/generate_hull.py`,
`write_stl`) -/

/-- A 3D vector (machine floats modelled by `ℚ`; every operation
`write_stl` performs on coordinates is rational except the final
normalization divide, see `StlFacet`). -/
def Vec3 : Type := ℚ × ℚ × ℚ

def vsub (a b : Vec3) : Vec3 := (a.1 - b.1, a.2.1 - b.2.1, a.2.2 - b.2.2)

/-- `np.cross u v`. -/
def crossProd (u v : Vec3) : Vec3 :=
  (u.2.1 * v.2.2 - u.2.2 * v.2.1,
    u.2.2 * v.1 - u.1 * v.2.2,
    u.1 * v.2.1 - u.2.1 * v.1)

/-- Squared Euclidean norm; `np.linalg.norm n` is its square root. -/
def normSq (n : Vec3) : ℚ := n.1 ^ 2 + n.2.1 ^ 2 + n.2.2 ^ 2

/-- One `facet ... endfacet` block.  `rawNormal` is the cross product
`n = cross(v2 - v1, v3 - v1)` before the guard; `normalized` records
whether the code divided `n` by its norm, i.e. whether
`np.linalg.norm(n) > 1e-6`.  Since both sides are non-negative that
guard is equivalent to `normSq n > (1e-6)^2`, which is the rational
(decidable) test used here; when `normalized = true` the vector written
on the `facet normal` line is `rawNormal / √(normSq rawNormal)` (kept in
this exact split representation because the divisor is irrational in
general), and when `normalized = false` it is `rawNormal` itself. -/
structure StlFacet where
  rawNormal : Vec3
  normalized : Bool
  v1 : Vec3
  v2 : Vec3
  v3 : Vec3

/-- The emitted file: one `solid <name>` block, its facets, one
`endsolid <name>` line. -/
structure StlFile where
  header : String
  facets : List StlFacet
  footer : String

/-- The per-face loop of `write_stl`.  `vertices[face[k]]` raises
`IndexError` on an out-of-range index, modelled by `none`. -/
def stlFacets (vertices : List Vec3) : List (ℕ × ℕ × ℕ) → Option (List StlFacet)
  | [] => some []
  | f :: rest => do
      let v1 ← vertices[f.1]?
      let v2 ← vertices[f.2.1]?
      let v3 ← vertices[f.2.2]?
      let n := crossProd (vsub v2 v1) (vsub v3 v1)
      let fac : StlFacet :=
        ⟨n, decide (((1 : ℚ) / 1000000) ^ 2 < normSq n), v1, v2, v3⟩
      let rest2 ← stlFacets vertices rest
      pure (fac :: rest2)

/-- `write_stl(filename, vertices, faces, name)`: one solid block opened
with `solid <name>`, one facet per face, closed with
`endsolid <name>`. -/
def write_stl (vertices : List Vec3) (faces : List (ℕ × ℕ × ℕ))
    (name : String) : Option StlFile :=
  (stlFacets vertices faces).map (fun fs =>
    { header := "solid " ++ name, facets := fs,
      footer := "endsolid " ++ name })

/-- The name used for the concrete counterexample input. -/
def stlTestName : String := "hull"

/-- The claim: the STL writer is total for every vertex list and face
list. -/
def stlWriterTotal : Prop :=
  ∀ (vertices : List Vec3) (faces : List (ℕ × ℕ × ℕ)) (name : String),
    (write_stl vertices faces name).isSome = true

/-- C10 counterexample: a face whose index is out of range makes
`write_stl` raise `IndexError` (modelled by `none`): with an empty
vertex list and the single face `(0, 0, 0)`, `vertices[0]` fails, so the
writer is not total for every vertex and face list. -/
theorem write_stl_counterexample : ¬ stlWriterTotal := by
  intro h
  have h2 := h [] [(0, 0, 0)] stlTestName
  rw [show write_stl [] [(0, 0, 0)] stlTestName = none by rfl] at h2
  simp at h2

lemma stlFacets_in_range (vertices : List Vec3) (faces : List (ℕ × ℕ × ℕ))
    (hf : ∀ f ∈ faces, f.1 < vertices.length ∧ f.2.1 < vertices.length ∧
      f.2.2 < vertices.length) :
    ∃ fs, stlFacets vertices faces = some fs ∧ fs.length = faces.length ∧
      ∀ fc ∈ fs,
        (fc.normalized = true ↔ ((1 : ℚ) / 1000000) ^ 2 < normSq fc.rawNormal) ∧
        (normSq fc.rawNormal = 0 → fc.normalized = false) := by
  induction faces with
  | nil => exact ⟨[], rfl, rfl, by simp⟩
  | cons f rest ih =>
      rcases hf f (by simp) with ⟨h1, h2, h3⟩
      rcases ih (fun g hg => hf g (List.mem_cons_of_mem _ hg)) with
        ⟨fs, hfs, hlen, hprop⟩
      refine ⟨⟨crossProd (vsub vertices[f.2.1] vertices[f.1])
          (vsub vertices[f.2.2] vertices[f.1]),
          decide (((1 : ℚ) / 1000000) ^ 2 < normSq
            (crossProd (vsub vertices[f.2.1] vertices[f.1])
              (vsub vertices[f.2.2] vertices[f.1]))),
          vertices[f.1], vertices[f.2.1], vertices[f.2.2]⟩ :: fs, ?_, ?_, ?_⟩
      · rw [stlFacets]
        rw [List.getElem?_eq_getElem h1, List.getElem?_eq_getElem h2,
          List.getElem?_eq_getElem h3, hfs]
        rfl
      · simp [hlen]
      · intro fc hfc
        rcases List.mem_cons.mp hfc with rfl | hmem
        · constructor
          · simp
          · intro hz
            simp [hz]
        · exact hprop fc hmem

/-- C10 amended: whenever every face index is in range, `write_stl` is
total and emits exactly one solid block — opened with `solid <name>`,
closed with `endsolid <name>` — containing one facet per face; a facet's
normal is divided by its magnitude exactly when that magnitude exceeds
`1e-6` (equivalently, squared magnitude exceeds `1e-12`), so a
degenerate triangle with zero cross product is written with the
unnormalized (zero) normal instead of causing a division by zero. -/
theorem write_stl_structure (vertices : List Vec3)
    (faces : List (ℕ × ℕ × ℕ)) (name : String)
    (hf : ∀ f ∈ faces, f.1 < vertices.length ∧ f.2.1 < vertices.length ∧
      f.2.2 < vertices.length) :
    ∃ out, write_stl vertices faces name = some out ∧
      out.header = "solid " ++ name ∧
      out.footer = "endsolid " ++ name ∧
      out.facets.length = faces.length ∧
      ∀ fc ∈ out.facets,
        (fc.normalized = true ↔ ((1 : ℚ) / 1000000) ^ 2 < normSq fc.rawNormal) ∧
        (normSq fc.rawNormal = 0 → fc.normalized = false) := by
  rcases stlFacets_in_range vertices faces hf with ⟨fs, hfs, hlen, hprop⟩
  unfold write_stl
  rw [hfs]
  exact ⟨_, rfl, rfl, rfl, hlen, hprop⟩

theorem write_stl_structure_witness :
    (∀ f ∈ [((0 : ℕ), (1 : ℕ), (2 : ℕ))],
      f.1 < ([((0 : ℚ), (0 : ℚ), (0 : ℚ)), (1, 0, 0), (1, 1, 0)] : List Vec3).length ∧
      f.2.1 < ([((0 : ℚ), (0 : ℚ), (0 : ℚ)), (1, 0, 0), (1, 1, 0)] : List Vec3).length ∧
      f.2.2 < ([((0 : ℚ), (0 : ℚ), (0 : ℚ)), (1, 0, 0), (1, 1, 0)] : List Vec3).length) ∧
    ∃ out, write_stl [((0 : ℚ), (0 : ℚ), (0 : ℚ)), (1, 0, 0), (1, 1, 0)]
        [(0, 1, 2)] stlTestName = some out ∧
      out.header = "solid " ++ stlTestName ∧
      out.footer = "endsolid " ++ stlTestName ∧
      out.facets.length = [((0 : ℕ), (1 : ℕ), (2 : ℕ))].length ∧
      ∀ fc ∈ out.facets,
        (fc.normalized = true ↔ ((1 : ℚ) / 1000000) ^ 2 < normSq fc.rawNormal) ∧
        (normSq fc.rawNormal = 0 → fc.normalized = false) :=
  ⟨by intro f hfm; simp at hfm; subst hfm; norm_num,
    write_stl_structure [((0 : ℚ), (0 : ℚ), (0 : ℚ)), (1, 0, 0), (1, 1, 0)]
      [(0, 1, 2)] stlTestName
      (by intro f hfm; simp at hfm; subst hfm; norm_num)⟩

/-! ## Section profile envelopes
(`examples/scripts/blender_nurbs_barge.py`, `get_section_profile`)

The width factor and keel rise use fractional powers (`t**0.5`,
`t**1.5`), so these envelopes are modelled over `ℝ` with `Real.rpow`. -/

/-- The `BargeConfig` dataclass. -/
structure BargeConfig where
  length : ℝ
  beam : ℝ
  depth : ℝ
  bilge_radius : ℝ
  parallel_midbody_start : ℝ
  parallel_midbody_end : ℝ
  bow_rake_len : ℝ
  stern_rake_len : ℝ
  stern_tunnel_height : ℝ

/-- Validity of a parameter set per the data-model invariants (§3 of the
spec): positive main dimensions, bilge radius within the half-beam,
ordered parallel midbody inside the hull, positive rake lengths,
non-negative tunnel height, and
`parallelMidbodyEnd + bowRakeLength ≤ length`. -/
def ValidConfig (c : BargeConfig) : Prop :=
  0 < c.length ∧ 0 < c.beam ∧ 0 < c.depth ∧
    0 ≤ c.bilge_radius ∧ c.bilge_radius ≤ c.beam / 2 ∧
    0 < c.parallel_midbody_start ∧
    c.parallel_midbody_start < c.parallel_midbody_end ∧
    c.parallel_midbody_end < c.length ∧
    0 < c.bow_rake_len ∧ 0 < c.stern_rake_len ∧
    0 ≤ c.stern_tunnel_height ∧
    c.parallel_midbody_end + c.bow_rake_len ≤ c.length

/-- `width_fac` of `get_section_profile`: `1.0` by default; on the stern
taper (`x < parallel_midbody_start`) `0.6 + 0.4 * t**0.5` with
`t = x / parallel_midbody_start`; on the bow taper
(`x > parallel_midbody_end`) `1.0 - 0.9 * t**1.5` with
`t = (x - parallel_midbody_end) / bow_rake_len`. -/
noncomputable def width_fac (c : BargeConfig) (x : ℝ) : ℝ :=
  if x < c.parallel_midbody_start then
    0.6 + 0.4 * (x / c.parallel_midbody_start) ^ (0.5 : ℝ)
  else if x > c.parallel_midbody_end then
    1 - 0.9 * ((x - c.parallel_midbody_end) / c.bow_rake_len) ^ (1.5 : ℝ)
  else 1

/-- `keel_z` of `get_section_profile`: `0.0` by default; for
`x < stern_rake_len`, `stern_tunnel_height * t**2` with
`t = (stern_rake_len - x) / stern_rake_len`. -/
noncomputable def keel_z (c : BargeConfig) (x : ℝ) : ℝ :=
  if x < c.stern_rake_len then
    c.stern_tunnel_height * ((c.stern_rake_len - x) / c.stern_rake_len) ^ (2 : ℕ)
  else 0

/-- The `BargeConfig()` defaults of the script. -/
noncomputable def defaultBargeConfig : BargeConfig :=
  ⟨135, 14.2, 4, 1.2, 20, 115, 20, 25, 1.8⟩

/-- A valid parameter set whose bow rake ends before the bow
(`parallel_midbody_end + bow_rake_len = 105 < length = 120`). -/
noncomputable def shortRakeConfig : BargeConfig :=
  ⟨120, 14.2, 4, 1.2, 20, 100, 5, 25, 1.8⟩

lemma defaultBargeConfig_valid : ValidConfig defaultBargeConfig := by
  unfold ValidConfig defaultBargeConfig
  norm_num

lemma shortRakeConfig_valid : ValidConfig shortRakeConfig := by
  unfold ValidConfig shortRakeConfig
  norm_num

lemma rpow_four_threehalves : (4 : ℝ) ^ (1.5 : ℝ) = 8 := by
  have h2 : (4 : ℝ) = (2 : ℝ) ^ (2 : ℝ) := by
    rw [show (2 : ℝ) ^ (2 : ℝ) = (2 : ℝ) ^ ((2 : ℕ) : ℝ) by norm_num,
      Real.rpow_natCast]
    norm_num
  rw [h2, ← Real.rpow_mul (by norm_num : (0 : ℝ) ≤ 2)]
  rw [show (2 : ℝ) * (1.5 : ℝ) = ((3 : ℕ) : ℝ) by norm_num,
    Real.rpow_natCast]
  norm_num

/-- C6 counterexample: the claim quantifies over every valid parameter
set and every station `x ∈ [0, length]`, but for a valid configuration
with `parallel_midbody_end + bow_rake_len < length` the bow-taper
parameter `t = (x - parallel_midbody_end) / bow_rake_len` exceeds `1`
near the bow and the width factor leaves `(0, 1]`: at `x = 120` on
`shortRakeConfig`, `t = 4` and
`width_fac = 1 - 0.9 * 4^1.5 = -31/5 < 0`. -/
theorem width_factor_counterexample :
    ValidConfig shortRakeConfig ∧ (0 : ℝ) ≤ 120 ∧
      (120 : ℝ) ≤ shortRakeConfig.length ∧
      width_fac shortRakeConfig 120 = -(31 / 5) := by
  refine ⟨shortRakeConfig_valid, by norm_num, ?_, ?_⟩
  · unfold shortRakeConfig
    norm_num
  · unfold width_fac shortRakeConfig
    rw [if_neg (by norm_num), if_pos (by norm_num)]
    rw [show ((120 : ℝ) - 100) / 5 = 4 by norm_num, rpow_four_threehalves]
    norm_num

/-- C6 amended: for every valid parameter set, the width factor lies in
`(0, 1]` for all stations up to `parallel_midbody_end + bow_rake_len`
(which is the full station range exactly when
`parallel_midbody_end + bow_rake_len = length`, as in the default
configuration): it equals `1` on the parallel midbody, lies in
`[0.6, 1)` on the stern taper, and lies in `[0.1, 1)` on the bow taper;
beyond `parallel_midbody_end + bow_rake_len` it drops below `0.1` and
can become negative. -/
theorem width_factor_range (c : BargeConfig) (hc : ValidConfig c) (x : ℝ)
    (hx0 : 0 ≤ x) (hx1 : x ≤ c.parallel_midbody_end + c.bow_rake_len) :
    (0 < width_fac c x ∧ width_fac c x ≤ 1) ∧
      (c.parallel_midbody_start ≤ x → x ≤ c.parallel_midbody_end →
        width_fac c x = 1) ∧
      (x < c.parallel_midbody_start →
        0.6 ≤ width_fac c x ∧ width_fac c x < 1) ∧
      (c.parallel_midbody_end < x →
        0.1 ≤ width_fac c x ∧ width_fac c x < 1) := by
  obtain ⟨hL, hB, hD, hr0, hr1, hps, hpse, hpeL, hbr, hsr, hth, hsum⟩ := hc
  have hstern : x < c.parallel_midbody_start →
      0.6 ≤ width_fac c x ∧ width_fac c x < 1 := by
    intro hx
    rw [width_fac, if_pos hx]
    set t := x / c.parallel_midbody_start with ht
    have ht0 : 0 ≤ t := div_nonneg hx0 hps.le
    have ht1 : t < 1 := (div_lt_one hps).mpr hx
    have hp0 : 0 ≤ t ^ (0.5 : ℝ) := Real.rpow_nonneg ht0 _
    have hp1 : t ^ (0.5 : ℝ) < 1 := Real.rpow_lt_one ht0 ht1 (by norm_num)
    constructor <;> nlinarith
  have hbow : c.parallel_midbody_end < x →
      0.1 ≤ width_fac c x ∧ width_fac c x < 1 := by
    intro hx
    have hns : ¬ x < c.parallel_midbody_start := by
      push_neg
      linarith
    rw [width_fac, if_neg hns, if_pos hx]
    set t := (x - c.parallel_midbody_end) / c.bow_rake_len with ht
    have ht0 : 0 < t := div_pos (by linarith) hbr
    have ht1 : t ≤ 1 := (div_le_one hbr).mpr (by linarith)
    have hp0 : 0 < t ^ (1.5 : ℝ) := Real.rpow_pos_of_pos ht0 _
    have hp1 : t ^ (1.5 : ℝ) ≤ 1 := Real.rpow_le_one ht0.le ht1 (by norm_num)
    constructor <;> nlinarith
  have hmid : c.parallel_midbody_start ≤ x → x ≤ c.parallel_midbody_end →
      width_fac c x = 1 := by
    intro h1 h2
    rw [width_fac, if_neg (by push_neg; exact h1), if_neg (by push_neg; exact h2)]
  refine ⟨?_, hmid, hstern, hbow⟩
  by_cases h1 : x < c.parallel_midbody_start
  · have := hstern h1
    constructor <;> linarith
  · by_cases h2 : c.parallel_midbody_end < x
    · have := hbow h2
      constructor <;> linarith
    · push_neg at h1 h2
      rw [hmid h1 h2]
      norm_num

theorem width_factor_range_witness :
    ValidConfig defaultBargeConfig ∧ (0 : ℝ) ≤ 50 ∧
      (50 : ℝ) ≤ defaultBargeConfig.parallel_midbody_end +
        defaultBargeConfig.bow_rake_len ∧
      ((0 < width_fac defaultBargeConfig 50 ∧
          width_fac defaultBargeConfig 50 ≤ 1) ∧
        (defaultBargeConfig.parallel_midbody_start ≤ 50 →
          (50 : ℝ) ≤ defaultBargeConfig.parallel_midbody_end →
          width_fac defaultBargeConfig 50 = 1) ∧
        ((50 : ℝ) < defaultBargeConfig.parallel_midbody_start →
          0.6 ≤ width_fac defaultBargeConfig 50 ∧
            width_fac defaultBargeConfig 50 < 1) ∧
        (defaultBargeConfig.parallel_midbody_end < 50 →
          0.1 ≤ width_fac defaultBargeConfig 50 ∧
            width_fac defaultBargeConfig 50 < 1)) :=
  ⟨defaultBargeConfig_valid, by norm_num,
    by unfold defaultBargeConfig; norm_num,
    width_factor_range defaultBargeConfig defaultBargeConfig_valid 50
      (by norm_num) (by unfold defaultBargeConfig; norm_num)⟩

/-- C8: for every valid parameter set, the keel-rise envelope satisfies
`keel_z x = stern_tunnel_height * ((stern_rake_len - x) / stern_rake_len)^2`
for `0 ≤ x < stern_rake_len` and `keel_z x = 0` for
`x ≥ stern_rake_len`; it is non-negative everywhere, equals
`stern_tunnel_height` at `x = 0` and `0` at `x = stern_rake_len`. -/
theorem keel_rise_envelope (c : BargeConfig) (hc : ValidConfig c) :
    (∀ x, 0 ≤ x → x < c.stern_rake_len →
      keel_z c x = c.stern_tunnel_height *
        ((c.stern_rake_len - x) / c.stern_rake_len) ^ (2 : ℕ)) ∧
      (∀ x, c.stern_rake_len ≤ x → keel_z c x = 0) ∧
      (∀ x, 0 ≤ keel_z c x) ∧
      keel_z c 0 = c.stern_tunnel_height ∧
      keel_z c c.stern_rake_len = 0 := by
  obtain ⟨hL, hB, hD, hr0, hr1, hps, hpse, hpeL, hbr, hsr, hth, hsum⟩ := hc
  refine ⟨?_, ?_, ?_, ?_, ?_⟩
  · intro x _ hx
    rw [keel_z, if_pos hx]
  · intro x hx
    rw [keel_z, if_neg (by push_neg; exact hx)]
  · intro x
    rw [keel_z]
    split_ifs
    · positivity
    · exact le_refl 0
  · rw [keel_z, if_pos hsr, sub_zero, div_self (ne_of_gt hsr)]
    norm_num
  · rw [keel_z, if_neg (by push_neg; exact le_refl _)]

theorem keel_rise_envelope_witness :
    ValidConfig defaultBargeConfig ∧
      keel_z defaultBargeConfig 0 = defaultBargeConfig.stern_tunnel_height ∧
      keel_z defaultBargeConfig defaultBargeConfig.stern_rake_len = 0 ∧
      (∀ x, 0 ≤ keel_z defaultBargeConfig x) :=
  ⟨defaultBargeConfig_valid,
    (keel_rise_envelope defaultBargeConfig defaultBargeConfig_valid).2.2.2.1,
    (keel_rise_envelope defaultBargeConfig defaultBargeConfig_valid).2.2.2.2,
    (keel_rise_envelope defaultBargeConfig defaultBargeConfig_valid).2.2.1⟩
